import Mathlib

/-!
# Solar Quest server (`src/public/server.js`): a shallow embedding

JavaScript numbers are modelled as exact rationals, `Math.random()` as a stream of
rationals in `[0, 1)`, `Date.now()` as a stream of clock readings, `Math.cos`, `Math.sin`
and `Math.hypot` as uninterpreted functions, and a JS `Map` as an insertion-ordered
association list.
-/

set_option autoImplicit false

namespace SolarQuest

/-! ## Game constants -/

/-- A catalog entry `{ id, name, x, y, r }`. -/
structure Body where
  id : String
  name : String
  x : ℚ
  y : ℚ
  r : ℚ
  deriving DecidableEq

/-- The constant `PLANETS` (server.js, lines 17-27). -/
def PLANETS : List Body :=
  [ ⟨"mercury", "Mercury", -420, -110, 18⟩,
    ⟨"venus", "Venus", -260, 130, 22⟩,
    ⟨"earth", "Earth", -60, 40, 24⟩,
    ⟨"mars", "Mars", 140, -40, 20⟩,
    ⟨"jupiter", "Jupiter", 370, 120, 40⟩,
    ⟨"saturn", "Saturn", 620, -120, 36⟩,
    ⟨"uranus", "Uranus", 860, 80, 30⟩,
    ⟨"neptune", "Neptune", 1100, -70, 30⟩,
    ⟨"pluto", "Pluto", 1320, 140, 14⟩ ]

/-- The constant `MOON` (server.js, line 29). -/
def MOON : Body := ⟨"moon", "Moon", -10, 95, 10⟩

/-- The ids of the nine planets, `PLANETS.map(p => p.id)`. -/
def planetIds : List String := PLANETS.map (fun p => p.id)

/-! ## The random source and the clock -/

/-- One result of `Math.random()`: a number in `[0, 1)`. -/
structure Rand where
  val : ℚ
  nonneg : 0 ≤ val
  lt_one : val < 1

/-- The successive results of `Math.random()`. -/
abbrev RandSrc := Nat → Rand

/-- The successive results of `Date.now()`. -/
abbrev Clock := Nat → Nat

/-- The source after one draw. -/
def RandSrc.tail (g : RandSrc) : RandSrc := fun n => g (n + 1)

/-- The clock after one reading. -/
def Clock.tail (c : Clock) : Clock := fun n => c (n + 1)

/-- Evaluates `Math.floor(u * n)` for a draw `u`. -/
def randIndex (u : Rand) (n : Nat) : Nat := (Int.floor (u.val * (n : ℚ))).toNat

/-! ## shuffle and makeQuestOrder -/

/-- The destructuring swap `[a[i], a[j]] = [a[j], a[i]]`; both indices are inside the array
at every call of `shuffle`, and outside that range the list is returned as it is. -/
def swap {α : Type} (a : List α) (i j : Nat) : List α :=
  match a[i]?, a[j]? with
  | some x, some y => (a.set i y).set j x
  | _, _ => a

/-- The loop of `shuffle` from index `i` down to `1`: one draw and one swap per index. -/
def shuffleLoop {α : Type} : Nat → List α → RandSrc → List α × RandSrc
  | 0, a, g => (a, g)
  | i + 1, a, g => shuffleLoop i (swap a (i + 1) (randIndex (g 0) (i + 1 + 1))) g.tail

/-- The function `shuffle(arr)`: a Fisher-Yates pass over a copy of `arr`. -/
def shuffle {α : Type} (arr : List α) (g : RandSrc) : List α × RandSrc :=
  shuffleLoop (arr.length - 1) arr g

/-- The function `makeQuestOrder()`: the shuffled planet ids followed by `"moon"`. -/
def makeQuestOrder (g : RandSrc) : List String × RandSrc :=
  let planetsOnly := PLANETS.map (fun p => p.id)
  let shuffled := shuffle planetsOnly g
  (shuffled.1 ++ ["moon"], shuffled.2)

/-! ## Data model -/

/-- A connection id `socket.id`: a non-empty string issued by the transport. -/
structure SocketId where
  val : String
  nonempty : val ≠ ""
  deriving DecidableEq

/-- The record `p.input`. -/
structure Input where
  up : Bool
  down : Bool
  left : Bool
  right : Bool
  deriving DecidableEq

/-- A player object, as built by `player:joinRoom`. -/
structure Player where
  name : String
  x : ℚ
  y : ℚ
  angle : ℚ
  speed : ℚ
  color : String
  spawnPlanetId : String
  questOrder : List String
  questIndex : Nat
  collected : List String
  input : Input
  lastSeen : Nat
  deriving DecidableEq

/-- The record `room.winner = { id, name, time }`. -/
structure Winner where
  id : SocketId
  name : String
  time : Nat
  deriving DecidableEq

/-- A room `{ hostId, players, winner, createdAt }`; `players` is the JS `Map` from socket
id to player, in insertion order. -/
structure Room where
  hostId : Option SocketId
  players : List (SocketId × Player)
  winner : Option Winner
  createdAt : Nat
  deriving DecidableEq

/-- The registry `rooms`: the JS `Map` from room code to room, in insertion order. -/
abbrev Registry := List (String × Room)

/-! ## JS `Map` operations on association lists -/

/-- Models `m.get(k)`. -/
def mapGet {κ β : Type} [DecidableEq κ] : List (κ × β) → κ → Option β
  | [], _ => none
  | e :: m, k => if e.1 = k then some e.2 else mapGet m k

/-- Models `m.has(k)`. -/
def mapHas {κ β : Type} [DecidableEq κ] (m : List (κ × β)) (k : κ) : Bool :=
  (mapGet m k).isSome

/-- Models `m.set(k, v)`: an existing key keeps its place, a new key goes last. -/
def mapSet {κ β : Type} [DecidableEq κ] : List (κ × β) → κ → β → List (κ × β)
  | [], k, v => [(k, v)]
  | e :: m, k, v => if e.1 = k then (e.1, v) :: m else e :: mapSet m k v

/-- Models `m.delete(k)`, as the map without the key `k`. -/
def mapDelete {κ β : Type} [DecidableEq κ] (m : List (κ × β)) (k : κ) : List (κ × β) :=
  m.filter (fun e => decide (e.1 ≠ k))

/-- The keys of a map, in insertion order. -/
def mapKeys {κ β : Type} (m : List (κ × β)) : List κ := m.map Prod.fst

/-- The function `getRoom(code)`. -/
def getRoom (rooms : Registry) (code : String) : Option Room := mapGet rooms code

/-! ## Messages sent by the server -/

/-- One entry of `players` in the public room state. -/
structure PlayerView where
  id : SocketId
  name : String
  x : ℚ
  y : ℚ
  angle : ℚ
  color : String
  speed : ℚ
  spawnPlanetId : String
  questOrder : List String
  questIndex : Nat
  questCollected : List String
  lastSeen : Nat
  deriving DecidableEq

/-- The object `{ code, players, planets, moon, winner }` built by `publicRoomState`. -/
structure Snapshot where
  code : String
  players : List PlayerView
  planets : List Body
  moon : Body
  winner : Option Winner
  deriving DecidableEq

/-- The payload of an emitted message. -/
inductive Payload where
  | state (s : Option Snapshot)
  | winner (w : Winner)
  | restarted (time : Nat)
  deriving DecidableEq

/-- The addressee of an emitted message: `io.to(code)` or the socket itself. -/
inductive Target where
  | room (code : String)
  | socket (id : SocketId)
  deriving DecidableEq

/-- One call of `emit(event, payload)`. -/
structure Emit where
  target : Target
  event : String
  payload : Payload
  deriving DecidableEq

/-- The public view of one room, the body of `publicRoomState` after the lookup. -/
def roomSnapshot (code : String) (room : Room) : Snapshot :=
  { code := code
    players := room.players.map (fun e =>
      { id := e.1, name := e.2.name, x := e.2.x, y := e.2.y, angle := e.2.angle,
        color := e.2.color, speed := e.2.speed, spawnPlanetId := e.2.spawnPlanetId,
        questOrder := e.2.questOrder, questIndex := e.2.questIndex,
        questCollected := e.2.collected, lastSeen := e.2.lastSeen })
    planets := PLANETS
    moon := MOON
    winner := room.winner }

/-- The function `publicRoomState(code)`: `null` when the code names no room. -/
def publicRoomState (rooms : Registry) (code : String) : Option Snapshot :=
  (mapGet rooms code).map (roomSnapshot code)

/-- What a handler run leaves behind: its acknowledgement, the messages it emitted in
order, and the registry. -/
structure Outcome (α : Type) where
  ack : α
  emits : List Emit
  rooms : Registry

/-! ## Helpers of the handlers -/

/-- The function `createRoomCode()`: five draws from a 32-character alphabet. -/
def createRoomCode (g : RandSrc) : String × RandSrc :=
  let chars : List Char := "ABCDEFGHJKLMNPQRSTUVWXYZ23456789".toList
  (String.mk ((List.range 5).map (fun i => chars.getD (randIndex (g i) chars.length) 'A')),
    fun n => g (n + 5))

/-- The function `randomColor()`. -/
def randomColor (g : RandSrc) : String × RandSrc :=
  let colors := ["#7dd3fc", "#a7f3d0", "#fda4af", "#fde68a", "#c4b5fd", "#fdba74"]
  (colors.getD (randIndex (g 0) colors.length) "", g.tail)

/-- The function `pickSpawnPlanet(room)`: an unused planet while there is one. The drawn
index is always inside `choiceList`. -/
def pickSpawnPlanet (players : List (SocketId × Player)) (g : RandSrc) : String × RandSrc :=
  let used := players.map (fun e => e.2.spawnPlanetId)
  let all := PLANETS.map (fun p => p.id)
  let unused := all.filter (fun id => !(used.contains id))
  let choiceList := if unused.length ≠ 0 then unused else all
  (choiceList.getD (randIndex (g 0) choiceList.length) "", g.tail)

/-- The function `spawnNearPlanet(planetId)`, with `PLANETS[0]` for an unknown id. -/
def spawnNearPlanet (planetId : String) : ℚ × ℚ :=
  let pl := (PLANETS.find? (fun p => decide (p.id = planetId))).getD
    (PLANETS.get ⟨0, by decide⟩)
  (pl.x + pl.r + 55, pl.y - (pl.r + 25))

/-- JS truthiness of `room.hostId`, which is `null` or a socket id. -/
def truthyHost : Option SocketId → Bool
  | none => false
  | some s => s.val != ""

/-- The functions `Math.cos`, `Math.sin` and `Math.hypot`, left uninterpreted: their
results are doubles, not the exact values. `hypot dx dy` stands for the double that
`Math.hypot` returns on the doubles nearest to the differences `dx` and `dy`. -/
structure Trig where
  cos : ℚ → ℚ
  sin : ℚ → ℚ
  hypot : ℚ → ℚ → ℚ

/-- The exact geometric test `c < √(dx² + dy²)`, decided over the rationals: it holds
exactly when `c` is negative or `c²` is below `dx² + dy²`. No handler uses it; it
evaluates distances between points of the catalog. -/
def exactFarther (dx dy c : ℚ) : Bool := decide (c < 0 ∨ c ^ 2 < dx ^ 2 + dy ^ 2)

/-! ## Acknowledgements -/

/-- The acknowledgement `{ ok: true }` or `{ ok: false, error }`. -/
structure Ack where
  ok : Bool
  error : Option String := none
  deriving DecidableEq

/-- The acknowledgement of `player:land`; an absent field is `none`. -/
structure LandAck where
  ok : Bool
  error : Option String := none
  collected : Option String := none
  deposited : Option Bool := none
  done : Option Bool := none
  next : Option String := none
  winner : Option Winner := none
  deriving DecidableEq

/-- The acknowledgement of `player:joinRoom`. -/
structure JoinAck where
  ok : Bool
  error : Option String := none
  code : Option String := none
  playerId : Option SocketId := none
  planets : List Body := []
  moon : Option Body := none
  questOrder : List String := []
  questIndex : Nat := 0
  questCollected : List String := []
  deriving DecidableEq

/-! ## Handlers -/

/-- The loop `do { code = createRoomCode(); } while (rooms.has(code))`, run for at most
`fuel` rounds; `none` when every round drew a code in use. -/
def freshRoomCode : Nat → Registry → RandSrc → Option String
  | 0, _, _ => none
  | fuel + 1, rooms, g =>
    if mapHas rooms (createRoomCode g).1 then freshRoomCode fuel rooms (createRoomCode g).2
    else some (createRoomCode g).1

/-- Handler `host:createRoom`; `none` when the code loop did not end within `fuel`. -/
def hostCreateRoom (fuel : Nat) (s : SocketId) (g : RandSrc) (c : Clock) (rooms : Registry) :
    Option (Outcome (Ack × String)) :=
  (freshRoomCode fuel rooms g).map (fun code =>
    let rooms1 := mapSet rooms code
      { hostId := some s, players := [], winner := none, createdAt := c 0 }
    { ack := ({ ok := true }, code)
      emits := [⟨Target.socket s, "room:state", Payload.state (publicRoomState rooms1 code)⟩]
      rooms := rooms1 })

/-- Handler `host:joinRoom`. -/
def hostJoinRoom (s : SocketId) (code : String) (rooms : Registry) : Outcome Ack :=
  match getRoom rooms code with
  | none => ⟨{ ok := false, error := some "Room not found" }, [], rooms⟩
  | some room =>
    let rooms1 := mapSet rooms code { room with hostId := some s }
    { ack := { ok := true }
      emits := [⟨Target.socket s, "room:state", Payload.state (publicRoomState rooms1 code)⟩]
      rooms := rooms1 }

/-- The respawned player object written by `host:restartRoom`. -/
def respawn (old : Player) (players : List (SocketId × Player)) (g : RandSrc) (t : Nat) :
    Player :=
  let spawnPlanetId := (pickSpawnPlanet players g).1
  let xy := spawnNearPlanet spawnPlanetId
  { old with
    x := xy.1, y := xy.2, angle := 0, speed := 0,
    spawnPlanetId := spawnPlanetId,
    questOrder := (makeQuestOrder (pickSpawnPlanet players g).2).1,
    questIndex := 0,
    collected := [],
    input := { up := false, down := false, left := false, right := false },
    lastSeen := t }

/-- The loop `for (const [id, old] of existing)` of `host:restartRoom`: its first argument
is what is left of `existing`, its second the map `room.players` being refilled. -/
def restartLoop : List (SocketId × Player) → List (SocketId × Player) → RandSrc → Clock →
    List (SocketId × Player) × Clock
  | [], players, _, c => (players, c)
  | e :: rest, players, g, c =>
    restartLoop rest (mapSet players e.1 (respawn e.2 players g (c 0)))
      (makeQuestOrder (pickSpawnPlanet players g).2).2 c.tail

/-- Handler `host:restartRoom`. -/
def hostRestartRoom (s : SocketId) (code : String) (g : RandSrc) (c : Clock)
    (rooms : Registry) : Outcome Ack :=
  match getRoom rooms code with
  | none => ⟨{ ok := false, error := some "Room not found" }, [], rooms⟩
  | some room =>
    if room.hostId ≠ some s then
      ⟨{ ok := false, error := some "Only host can restart" }, [], rooms⟩
    else
      let r := restartLoop room.players [] g c
      let rooms1 := mapSet rooms code { room with winner := none, players := r.1 }
      { ack := { ok := true }
        emits :=
          [⟨Target.room code, "game:restarted", Payload.restarted (r.2 0)⟩,
           ⟨Target.room code, "room:state", Payload.state (publicRoomState rooms1 code)⟩]
        rooms := rooms1 }

/-- The expression `(name || "Pilot").toString().trim().slice(0, 16)` for a name that is a
string or missing; `trim` and `slice` are taken over the characters of the string. -/
def cleanName (name : Option String) : String :=
  ((match name with
    | none => "Pilot"
    | some n => if n = "" then "Pilot" else n).trim).take 16

/-- Handler `player:joinRoom`. -/
def playerJoinRoom (s : SocketId) (code : String) (name : Option String) (g : RandSrc)
    (c : Clock) (rooms : Registry) : Outcome JoinAck :=
  match getRoom rooms code with
  | none => ⟨{ ok := false, error := some "Room not found" }, [], rooms⟩
  | some room =>
    let spawnPlanetId := (pickSpawnPlanet room.players g).1
    let g1 := (pickSpawnPlanet room.players g).2
    let xy := spawnNearPlanet spawnPlanetId
    let player : Player :=
      { name := cleanName name
        x := xy.1, y := xy.2, angle := 0, speed := 0
        color := (randomColor g1).1
        spawnPlanetId := spawnPlanetId
        questOrder := (makeQuestOrder (randomColor g1).2).1
        questIndex := 0
        collected := []
        input := { up := false, down := false, left := false, right := false }
        lastSeen := c 0 }
    let rooms1 := mapSet rooms code { room with players := mapSet room.players s player }
    { ack :=
        { ok := true, code := some code, playerId := some s, planets := PLANETS,
          moon := some MOON, questOrder := player.questOrder,
          questIndex := player.questIndex, questCollected := player.collected }
      emits := [⟨Target.room code, "room:state", Payload.state (publicRoomState rooms1 code)⟩]
      rooms := rooms1 }

/-- Handler `player:input`; the message carries an input record or none, and a missing
record reads as all flags false. -/
def playerInput (s : SocketId) (code : String) (input : Option Input) (c : Clock)
    (rooms : Registry) : Registry :=
  match getRoom rooms code with
  | none => rooms
  | some room =>
    match mapGet room.players s with
    | none => rooms
    | some p =>
      let i := input.getD { up := false, down := false, left := false, right := false }
      mapSet rooms code
        { room with players := mapSet room.players s { p with input := i, lastSeen := c 0 } }

/-- A failed acknowledgement `{ ok: false, error }` of `player:land`. -/
def landError (msg : String) : LandAck := { ok := false, error := some msg }

/-- The lookup `targetId === "moon" ? MOON : PLANETS.find(pl => pl.id === targetId)`. -/
def findTarget (targetId : String) : Option Body :=
  if targetId = "moon" then some MOON else PLANETS.find? (fun pl => decide (pl.id = targetId))

/-- The test `[...needed].every(id => p.collected.includes(id))`, `needed` being the set
of planet ids. -/
def haveAll (collected : List String) : Bool :=
  (PLANETS.map (fun pl => pl.id)).all (fun id => collected.contains id)

/-- The player after a landing on a planet: `targetId` is pushed unless already collected,
and `questIndex` advances while it is below `questOrder.length - 1`. -/
def collect (p : Player) (targetId : String) : Player :=
  { p with
    collected := if p.collected.contains targetId then p.collected
      else p.collected ++ [targetId]
    questIndex := if (p.questIndex : ℤ) < (p.questOrder.length : ℤ) - 1 then p.questIndex + 1
      else p.questIndex }

/-- The range test of lines 238-239: `dist = Math.hypot(p.x - target.x, p.y - target.y)`
and `dist > target.r + 45`. The sum `target.r + 45` is exact, the radii of the catalog
being small integers. -/
def tooFar (T : Trig) (p : Player) (target : Body) : Bool :=
  decide (T.hypot (p.x - target.x) (p.y - target.y) > target.r + 45)

/-- Handler `player:land`. An undefined `targetId` (index outside `questOrder`) is not
`"moon"` and is the id of no planet, so it ends in `"Bad target"`. -/
def playerLand (T : Trig) (s : SocketId) (code : String) (c : Clock) (rooms : Registry) :
    Outcome LandAck :=
  match getRoom rooms code with
  | none => ⟨landError "Room not found", [], rooms⟩
  | some room =>
    match room.winner with
    | some w => ⟨landError ("Game over. Winner: " ++ w.name), [], rooms⟩
    | none =>
      match mapGet room.players s with
      | none => ⟨landError "Player not found", [], rooms⟩
      | some p =>
        match p.questOrder[p.questIndex]? with
        | none => ⟨landError "Bad target", [], rooms⟩
        | some targetId =>
          match findTarget targetId with
          | none => ⟨landError "Bad target", [], rooms⟩
          | some target =>
            if tooFar T p target then
              ⟨landError "Too far to land. Get closer.", [], rooms⟩
            else if targetId ≠ "moon" then
              let p1 := collect p targetId
              let rooms1 := mapSet rooms code { room with players := mapSet room.players s p1 }
              { ack :=
                  { ok := true, collected := some targetId, deposited := some false,
                    done := some false, next := p1.questOrder[p1.questIndex]? }
                emits :=
                  [⟨Target.room code, "room:state",
                    Payload.state (publicRoomState rooms1 code)⟩]
                rooms := rooms1 }
            else if !(haveAll p.collected) then
              ⟨landError "You must collect all planet items before depositing on the Moon.",
                [], rooms⟩
            else
              let w : Winner := { id := s, name := p.name, time := c 0 }
              let rooms1 := mapSet rooms code { room with winner := some w }
              { ack :=
                  { ok := true, deposited := some true, done := some true, winner := some w }
                emits :=
                  [⟨Target.room code, "game:winner", Payload.winner w⟩,
                   ⟨Target.room code, "room:state",
                    Payload.state (publicRoomState rooms1 code)⟩]
                rooms := rooms1 }

/-- Handler `room:leave`. -/
def roomLeave (s : SocketId) (code : String) (rooms : Registry) : List Emit × Registry :=
  match getRoom rooms code with
  | none => ([], rooms)
  | some room =>
    let rooms1 := mapSet rooms code { room with players := mapDelete room.players s }
    ([⟨Target.room code, "room:state", Payload.state (publicRoomState rooms1 code)⟩], rooms1)

/-- The room after the two clearing steps of the `disconnect` loop body. -/
def clearSocket (s : SocketId) (room : Room) : Room :=
  { room with
    hostId := if room.hostId = some s then none else room.hostId
    players := mapDelete room.players s }

/-- The flag `changed` of the `disconnect` loop body. -/
def changedBy (s : SocketId) (room : Room) : Bool :=
  decide (room.hostId = some s) || mapHas room.players s

/-- The test `!room.hostId && room.players.size === 0`. -/
def isAbandoned (room : Room) : Bool :=
  !(truthyHost room.hostId) && decide (room.players.length = 0)

/-- Handler `disconnect`: one pass over the entries of `rooms`. Inside the pass
`publicRoomState(code)` reads the room being visited, the keys of a `Map` being unique. -/
def disconnect (s : SocketId) : Registry → List Emit × Registry
  | [] => ([], [])
  | e :: rest =>
    let room1 := clearSocket s e.2
    let r := disconnect s rest
    if isAbandoned room1 then r
    else if changedBy s e.2 then
      (⟨Target.room e.1, "room:state", Payload.state (some (roomSnapshot e.1 room1))⟩ :: r.1,
        (e.1, room1) :: r.2)
    else (r.1, (e.1, room1) :: r.2)

/-! ## The physics tick -/

/-- The body of the loop over the players of a room in the tick; `t` is `now()`. -/
def tickPlayer (T : Trig) (p : Player) (t : Nat) : Player :=
  let turnRate : ℚ := 9 / 100
  let angle1 := if p.input.left then p.angle - turnRate else p.angle
  let angle2 := if p.input.right then angle1 + turnRate else angle1
  let accel : ℚ := 1 / 4
  let maxSpeed : ℚ := 6
  let speed1 := if p.input.up then p.speed + accel else p.speed
  let speed2 := if p.input.down then speed1 - accel * (8 / 10) else speed1
  let speed3 := speed2 * (92 / 100)
  let speed4 := max (min speed3 maxSpeed) (-maxSpeed * (6 / 10))
  let x1 := p.x + T.cos angle2 * speed4
  let y1 := p.y + T.sin angle2 * speed4
  let bound : ℚ := 1700
  { p with
    angle := angle2, speed := speed4,
    x := max (-bound) (min bound x1),
    y := max (-bound) (min bound y1),
    lastSeen := t }

/-- The loop over `room.players.entries()` in the tick, one clock reading per player. -/
def tickPlayers (T : Trig) : List (SocketId × Player) → Clock →
    List (SocketId × Player) × Clock
  | [], c => ([], c)
  | e :: rest, c =>
    ((e.1, tickPlayer T e.2 (c 0)) :: (tickPlayers T rest c.tail).1,
      (tickPlayers T rest c.tail).2)

/-- One run of the `setInterval` callback: a room with a winner is broadcast as it is, any
other room is integrated and then broadcast. Inside the pass `publicRoomState(code)` reads
the room being visited, the keys of a `Map` being unique. -/
def tick (T : Trig) : Registry → Clock → List Emit × Registry
  | [], _ => ([], [])
  | e :: rest, c =>
    if e.2.winner.isSome then
      (⟨Target.room e.1, "room:tick", Payload.state (some (roomSnapshot e.1 e.2))⟩ ::
          (tick T rest c).1,
        e :: (tick T rest c).2)
    else
      let ps := tickPlayers T e.2.players c
      let room1 : Room := { e.2 with players := ps.1 }
      (⟨Target.room e.1, "room:tick", Payload.state (some (roomSnapshot e.1 room1))⟩ ::
          (tick T rest ps.2).1,
        (e.1, room1) :: (tick T rest ps.2).2)

/-! ## Runs of the server -/

/-- One message handled by the server, or one tick. -/
inductive Event where
  | createRoom (s : SocketId) (fuel : Nat)
  | hostJoin (s : SocketId) (code : String)
  | restart (s : SocketId) (code : String)
  | playerJoin (s : SocketId) (code : String) (name : Option String)
  | input (s : SocketId) (code : String) (input : Option Input)
  | land (s : SocketId) (code : String)
  | leave (s : SocketId) (code : String)
  | disconnect (s : SocketId)
  | tick

/-- The registry after one event, under the random draws `g` and the clock `c`. -/
def step (T : Trig) (ev : Event) (g : RandSrc) (c : Clock) (rooms : Registry) : Registry :=
  match ev with
  | Event.createRoom s fuel =>
    match hostCreateRoom fuel s g c rooms with
    | none => rooms
    | some o => o.rooms
  | Event.hostJoin s code => (hostJoinRoom s code rooms).rooms
  | Event.restart s code => (hostRestartRoom s code g c rooms).rooms
  | Event.playerJoin s code name => (playerJoinRoom s code name g c rooms).rooms
  | Event.input s code input => playerInput s code input c rooms
  | Event.land s code => (playerLand T s code c rooms).rooms
  | Event.leave s code => (roomLeave s code rooms).2
  | Event.disconnect s => (disconnect s rooms).2
  | Event.tick => (tick T rooms c).2

/-- The registries the server can be in: the empty one at start, and every registry one
event after a reachable one, for any random draws and any clock. -/
inductive Reachable (T : Trig) : Registry → Prop where
  | init : Reachable T []
  | step {rooms : Registry} (h : Reachable T rooms) (ev : Event) (g : RandSrc) (c : Clock) :
      Reachable T (step T ev g c rooms)

/-- A serialized sequence of `player:land` requests on the room `code`, one clock per
request: the acknowledgements in order and the final registry. -/
def landSeq (T : Trig) (code : String) :
    List (SocketId × Clock) → Registry → List LandAck × Registry
  | [], rooms => ([], rooms)
  | r :: rest, rooms =>
    ((playerLand T r.1 code r.2 rooms).ack ::
        (landSeq T code rest (playerLand T r.1 code r.2 rooms).rooms).1,
      (landSeq T code rest (playerLand T r.1 code r.2 rooms).rooms).2)

/-- The state of a player right after a spawn: quest at its start over a valid order, at
rest, no key held, placed by `spawnNearPlanet` at its spawn planet. -/
def Respawned (p : Player) : Prop :=
  p.questIndex = 0 ∧ p.collected = [] ∧
  p.questOrder.length = 10 ∧ List.Perm (p.questOrder.take 9) planetIds ∧
  p.questOrder[9]? = some "moon" ∧
  p.angle = 0 ∧ p.speed = 0 ∧
  p.input = { up := false, down := false, left := false, right := false } ∧
  (p.x, p.y) = spawnNearPlanet p.spawnPlanetId

/-- The quest invariant of one player: a valid order, an index inside it, and `collected`
equal to the entries of the order before the index. -/
def QuestInv (p : Player) : Prop :=
  p.questOrder.length = 10 ∧ List.Perm (p.questOrder.take 9) planetIds ∧
  p.questOrder[9]? = some "moon" ∧ p.questIndex ≤ 9 ∧
  p.collected = p.questOrder.take p.questIndex

/-- The quest invariant for every player of every room. -/
def RegistryInv (rooms : Registry) : Prop :=
  ∀ e ∈ rooms, ∀ q ∈ e.2.players, QuestInv q.2

/-- The value of `p.speed` after line 324 of the tick: thrust, brake and damping applied,
the clamp of line 325 still to come. -/
def dampedSpeed (p : Player) : ℚ :=
  let accel : ℚ := 1 / 4
  let speed1 := if p.input.up then p.speed + accel else p.speed
  let speed2 := if p.input.down then speed1 - accel * (8 / 10) else speed1
  speed2 * (92 / 100)

/-- Successive ticks of one player; each entry gives the input record in force at that
tick, as last written by `player:input`, and the clock reading of the tick. -/
def runTicks (T : Trig) : List (Input × Nat) → Player → Player
  | [], p => p
  | i :: rest, p => runTicks T rest (tickPlayer T { p with input := i.1 } i.2)

/-- The speed range between the fixed points of braking and of thrust. -/
def SpeedInv (p : Player) : Prop := -(23 / 10 : ℚ) ≤ p.speed ∧ p.speed ≤ 23 / 8

/-- The speed range for every player of every room. -/
def RegistrySpeedInv (rooms : Registry) : Prop :=
  ∀ e ∈ rooms, ∀ q ∈ e.2.players, SpeedInv q.2

/-- Whether the event is a `host:restartRoom` message for the room `code`. -/
def isRestartOf (code : String) : Event → Bool
  | Event.restart _ code2 => decide (code2 = code)
  | _ => false

/-- The registry after a run of events, each with its random draws and its clock. -/
def runTrace (T : Trig) : List (Event × RandSrc × Clock) → Registry → Registry
  | [], rooms => rooms
  | st :: rest, rooms => runTrace T rest (step T st.1 st.2.1 st.2.2 rooms)

/-- The acknowledgements, in order, of the `player:land` requests for the room `code`
met along a run of events. -/
def landAcks (T : Trig) (code : String) :
    List (Event × RandSrc × Clock) → Registry → List LandAck
  | [], _ => []
  | st :: rest, rooms =>
    match st.1 with
    | Event.land s code2 =>
      if code2 = code then
        (playerLand T s code2 st.2.2 rooms).ack ::
          landAcks T code rest (step T st.1 st.2.1 st.2.2 rooms)
      else landAcks T code rest (step T st.1 st.2.1 st.2.2 rooms)
    | _ => landAcks T code rest (step T st.1 st.2.1 st.2.2 rooms)

/-- A run during which the room `code` lives on and is not restarted: the code names a
room before and after every event, and no event is a restart of that room. -/
def sameRoomRun (T : Trig) (code : String) :
    List (Event × RandSrc × Clock) → Registry → Bool
  | [], rooms => (getRoom rooms code).isSome
  | st :: rest, rooms =>
    (getRoom rooms code).isSome && !(isRestartOf code st.1) &&
      sameRoomRun T code rest (step T st.1 st.2.1 st.2.2 rooms)

/-! ## Sample inputs -/

/-- A sample socket id, used as a player. -/
def sockA : SocketId := ⟨"sockA", by decide⟩

/-- A second sample socket id, used as a host. -/
def sockH : SocketId := ⟨"sockH", by decide⟩

/-- A third sample socket id. -/
def sockB : SocketId := ⟨"sockB", by decide⟩

/-- A sample clock: the reading number `n` is `n`. -/
def clock0 : Clock := fun n => n

/-- A sample random source: every draw is `1/2`. -/
def randHalf : RandSrc := fun _ => ⟨1 / 2, by norm_num, by norm_num⟩

/-- A sample player resting on the centre of the Moon with the whole quest collected. -/
def pilotAtMoon : Player :=
  { name := "Ava", x := -10, y := 95, angle := 0, speed := 0, color := "#7dd3fc",
    spawnPlanetId := "earth",
    questOrder := ["mercury", "venus", "earth", "mars", "jupiter", "saturn", "uranus",
      "neptune", "pluto", "moon"],
    questIndex := 9,
    collected := ["mercury", "venus", "earth", "mars", "jupiter", "saturn", "uranus",
      "neptune", "pluto"],
    input := { up := false, down := false, left := false, right := false },
    lastSeen := 0 }

/-- A sample room hosted by `sockH` with the player `pilotAtMoon`. -/
def moonRoom : Room :=
  { hostId := some sockH
    players := [(sockA, pilotAtMoon)]
    winner := none
    createdAt := 0 }

/-- A sample registry: the room `moonRoom` under the code `"ABCDE"`. -/
def moonRooms : Registry := [("ABCDE", moonRoom)]

/-- A sample player as `player:joinRoom` builds it under `randHalf` and `clock0` in an empty
room: spawned near Jupiter, at rest, with a fresh quest. -/
def pilotAtStart : Player :=
  { name := "Ava", x := 465, y := 55, angle := 0, speed := 0, color := "#fde68a",
    spawnPlanetId := "jupiter",
    questOrder := ["mercury", "saturn", "venus", "neptune", "earth", "uranus", "mars",
      "pluto", "jupiter", "moon"],
    questIndex := 0,
    collected := [],
    input := { up := false, down := false, left := false, right := false },
    lastSeen := 0 }

/-- A sample of the uninterpreted functions: constant cosine 1 and sine 0, and for
`hypot` the sum of the absolute values, which is the distance along an axis. -/
def trigEast : Trig := ⟨fun _ => 1, fun _ => 0, fun dx dy => |dx| + |dy|⟩

/-- A sample room with a winner, in which `pilotAtStart` holds the up and right keys. -/
def wonRoom : Room :=
  { hostId := some sockH
    players := [(sockA,
      { pilotAtStart with input := { up := true, down := false, left := false, right := true } })]
    winner := some { id := sockB, name := "Bo", time := 7 }
    createdAt := 0 }

/-- A sample run of the server: `sockH` creates a room, which gets the code `"SSSSS"` under
`randHalf`, and `sockA` joins it. -/
def startRooms : Registry :=
  step trigEast (Event.playerJoin sockA "SSSSS" (some "Ava")) randHalf clock0
    (step trigEast (Event.createRoom sockH 1) randHalf clock0 [])

/-- A sample run on `moonRooms`: `sockA` lands on the Moon, then a tick, an input of
`sockA`, the arrival of `sockB`, the departure of the host, and a landing attempt of
`sockB`. -/
def moonTrace : List (Event × RandSrc × Clock) :=
  [(Event.land sockA "ABCDE", randHalf, clock0),
   (Event.tick, randHalf, clock0),
   (Event.input sockA "ABCDE" (some ⟨true, false, false, true⟩), randHalf, clock0),
   (Event.playerJoin sockB "ABCDE" (some "Bo"), randHalf, clock0),
   (Event.disconnect sockH, randHalf, clock0),
   (Event.land sockB "ABCDE", randHalf, clock0)]

/-! ## Lemmas on the random source and on shuffle -/

theorem randIndex_lt (u : Rand) (n : Nat) (hn : 0 < n) : randIndex u n < n := by
  unfold randIndex
  have hpos : (0 : ℚ) < (n : ℚ) := by exact_mod_cast hn
  have h1 : u.val * (n : ℚ) < (n : ℚ) := by
    have := mul_lt_mul_of_pos_right u.lt_one hpos
    simpa using this
  have h2 : Int.floor (u.val * (n : ℚ)) < (n : ℤ) := by
    rw [Int.floor_lt]
    exact_mod_cast h1
  omega

theorem swap_perm {α : Type} [DecidableEq α] (a : List α) (i j : Nat) :
    List.Perm (swap a i j) a := by
  unfold swap
  split
  · rename_i x y hx hy
    obtain ⟨hi, hxi⟩ := List.getElem?_eq_some_iff.mp hx
    obtain ⟨hj, hyj⟩ := List.getElem?_eq_some_iff.mp hy
    rw [List.perm_iff_count]
    intro b
    have hj2 : j < (a.set i y).length := by simpa using hj
    rw [List.count_set _ _ _ _ hj2, List.count_set _ _ _ _ hi]
    have hb : ((a.set i y)[j]) = (if i = j then y else a[j]) := by
      rw [List.getElem_set]
    rw [hb]
    have hcx : 0 < List.count x a := by
      rw [List.count_pos_iff]; rw [← hxi]; exact List.getElem_mem _
    have hcy : 0 < List.count y a := by
      rw [List.count_pos_iff]; rw [← hyj]; exact List.getElem_mem _
    by_cases hij : i = j
    · subst hij
      have hxy : x = y := by rw [← hxi, ← hyj]
      subst hxy
      simp only [hxi, if_true]
      by_cases hxb : x = b
      · subst hxb; simp; omega
      · simp [hxb]
    · simp only [hxi, hyj, if_neg hij]
      by_cases hxb : x = b <;> by_cases hyb : y = b
      · subst hxb; subst hyb; simp; omega
      · subst hxb; simp [hyb]; omega
      · subst hyb; simp [hxb]
      · simp [hxb, hyb]
  · exact List.Perm.refl _

theorem shuffleLoop_perm {α : Type} [DecidableEq α] (i : Nat) (a : List α) (g : RandSrc) :
    List.Perm (shuffleLoop i a g).1 a := by
  induction i generalizing a g with
  | zero => exact List.Perm.refl _
  | succ i ih =>
    simp only [shuffleLoop]
    exact (ih _ _).trans (swap_perm _ _ _)

theorem shuffle_perm {α : Type} [DecidableEq α] (arr : List α) (g : RandSrc) :
    List.Perm (shuffle arr g).1 arr :=
  shuffleLoop_perm _ _ _

theorem planetIds_length : planetIds.length = 9 := by decide

theorem planetIds_nodup : planetIds.Nodup := by decide

/-! ## Quest validity -/

theorem makeQuestOrder_shape (g : RandSrc) :
    (makeQuestOrder g).1.length = 10 ∧
    List.Perm ((makeQuestOrder g).1.take 9) planetIds ∧
    ((makeQuestOrder g).1.take 9).Nodup ∧
    (∀ p ∈ PLANETS, p.id ∈ (makeQuestOrder g).1.take 9) ∧
    (makeQuestOrder g).1[9]? = some "moon" := by
  have hp : List.Perm (shuffle planetIds g).1 planetIds := shuffle_perm _ _
  have hl : (shuffle planetIds g).1.length = 9 := by
    rw [hp.length_eq, planetIds_length]
  have htake : (makeQuestOrder g).1.take 9 = (shuffle planetIds g).1 := by
    show ((shuffle planetIds g).1 ++ ["moon"]).take 9 = _
    rw [List.take_append_of_le_length (by omega), List.take_of_length_le (by omega)]
  refine ⟨?_, ?_, ?_, ?_, ?_⟩
  · show ((shuffle planetIds g).1 ++ ["moon"]).length = 10
    simp [hl]
  · rw [htake]; exact hp
  · rw [htake]; exact hp.nodup_iff.mpr planetIds_nodup
  · intro p hpm
    rw [htake]
    exact hp.mem_iff.mpr (List.mem_map_of_mem _ hpm)
  · show ((shuffle planetIds g).1 ++ ["moon"])[9]? = some "moon"
    rw [List.getElem?_append_right (by omega)]
    simp [hl]

/-- Claim C1: for every outcome of the random source, `makeQuestOrder` returns a list of
length 10 whose first nine entries are a permutation of the nine planet ids (hence without
repeats and without omissions) and whose last entry is `"moon"`. -/
theorem makeQuestOrder_valid (g : RandSrc) :
    (makeQuestOrder g).1.length = 10 ∧
    List.Perm ((makeQuestOrder g).1.take 9) planetIds ∧
    ((makeQuestOrder g).1.take 9).Nodup ∧
    (∀ p ∈ PLANETS, p.id ∈ (makeQuestOrder g).1.take 9) ∧
    (makeQuestOrder g).1[9]? = some "moon" :=
  makeQuestOrder_shape g

/-! ## Lemmas on maps -/

theorem mapGet_mapSet_self {κ β : Type} [DecidableEq κ] (m : List (κ × β)) (k : κ) (v : β) :
    mapGet (mapSet m k v) k = some v := by
  induction m with
  | nil => simp [mapSet, mapGet]
  | cons e m ih =>
    by_cases h : e.1 = k
    · simp [mapSet, mapGet, h]
    · simp [mapSet, mapGet, h, ih]

theorem mapGet_mapSet_ne {κ β : Type} [DecidableEq κ] (m : List (κ × β)) (k k2 : κ) (v : β)
    (hne : k2 ≠ k) : mapGet (mapSet m k v) k2 = mapGet m k2 := by
  induction m with
  | nil =>
    have h : ¬ k = k2 := fun h => hne h.symm
    simp [mapSet, mapGet, h]
  | cons e m ih =>
    by_cases h : e.1 = k
    · have h2 : ¬ e.1 = k2 := fun h2 => hne (h2.symm.trans h)
      simp only [mapSet, if_pos h, mapGet, if_neg h2]
    · by_cases h2 : e.1 = k2
      · simp only [mapSet, if_neg h, mapGet, if_pos h2]
      · simp only [mapSet, if_neg h, mapGet, if_neg h2, ih]

theorem mem_of_mapGet {κ β : Type} [DecidableEq κ] (m : List (κ × β)) (k : κ) (v : β)
    (h : mapGet m k = some v) : (k, v) ∈ m := by
  induction m with
  | nil => simp [mapGet] at h
  | cons e m ih =>
    by_cases hk : e.1 = k
    · simp [mapGet, hk] at h
      subst hk; subst h
      exact List.mem_cons_self _ _
    · simp [mapGet, hk] at h
      exact List.mem_cons_of_mem _ (ih h)

theorem mem_mapSet {κ β : Type} [DecidableEq κ] (m : List (κ × β)) (k : κ) (v : β)
    (e : κ × β) (h : e ∈ mapSet m k v) : e ∈ m ∨ e = (k, v) := by
  induction m with
  | nil => simp [mapSet] at h; exact Or.inr h
  | cons e2 m ih =>
    by_cases hk : e2.1 = k
    · simp [mapSet, hk] at h
      rcases h with h | h
      · exact Or.inr h
      · exact Or.inl (List.mem_cons_of_mem _ h)
    · simp [mapSet, hk] at h
      rcases h with h | h
      · exact Or.inl (h ▸ List.mem_cons_self _ _)
      · rcases ih h with h3 | h3
        · exact Or.inl (List.mem_cons_of_mem _ h3)
        · exact Or.inr h3

theorem mapGet_of_mem_nodup {κ β : Type} [DecidableEq κ] (m : List (κ × β)) (k : κ) (v : β)
    (hn : (mapKeys m).Nodup) (h : (k, v) ∈ m) : mapGet m k = some v := by
  induction m with
  | nil => simp at h
  | cons e m ih =>
    simp only [mapKeys, List.map_cons, List.nodup_cons] at hn
    rcases List.mem_cons.mp h with h | h
    · subst h; simp [mapGet]
    · have hne : e.1 ≠ k := by
        intro he
        apply hn.1
        rw [he]
        exact List.mem_map_of_mem Prod.fst h
      simp only [mapGet, if_neg hne]
      exact ih hn.2 h

theorem mapGet_isSome_iff {κ β : Type} [DecidableEq κ] (m : List (κ × β)) (k : κ) :
    (mapGet m k).isSome = true ↔ k ∈ mapKeys m := by
  induction m with
  | nil => simp [mapGet, mapKeys]
  | cons e m ih =>
    by_cases hk : e.1 = k
    · simp [mapGet, mapKeys, hk]
    · have hk2 : ¬ k = e.1 := fun h => hk h.symm
      simp only [mapGet, if_neg hk, ih, mapKeys, List.map_cons, List.mem_cons, hk2, false_or]

theorem mapKeys_mapSet {κ β : Type} [DecidableEq κ] (m : List (κ × β)) (k : κ) (v : β) :
    mapKeys (mapSet m k v) = if k ∈ mapKeys m then mapKeys m else mapKeys m ++ [k] := by
  induction m with
  | nil => simp [mapSet, mapKeys]
  | cons e m ih =>
    by_cases hk : e.1 = k
    · simp [mapSet, mapKeys, hk]
    · have hk2 : ¬ k = e.1 := fun h => hk h.symm
      simp only [mapSet, if_neg hk, mapKeys, List.map_cons, List.mem_cons, hk2, false_or]
      simp only [mapKeys] at ih
      rw [ih]
      split <;> simp

theorem mapGet_mapDelete_self {κ β : Type} [DecidableEq κ] (m : List (κ × β)) (k : κ) :
    mapGet (mapDelete m k) k = none := by
  induction m with
  | nil => simp [mapDelete, mapGet]
  | cons e m ih =>
    by_cases hk : e.1 = k
    · simp only [mapDelete] at ih
      simp only [mapDelete, List.filter_cons, hk, ne_eq, not_true_eq_false, decide_False,
        Bool.false_eq_true, if_false]
      rw [← hk]; rw [← hk] at ih; exact ih
    · simp only [mapDelete] at ih
      simp only [mapDelete, List.filter_cons, hk, ne_eq, not_false_eq_true, decide_True,
        if_true, mapGet, if_false]
      exact ih

theorem not_mem_mapKeys_mapDelete {κ β : Type} [DecidableEq κ] (m : List (κ × β)) (k : κ) :
    k ∉ mapKeys (mapDelete m k) := by
  simp [mapKeys, mapDelete, List.mem_map, List.mem_filter]

/-! ## The distance test -/

theorem exactFarther_iff (dx dy c : ℚ) :
    exactFarther dx dy c = true ↔ (c : ℝ) < Real.sqrt ((dx : ℝ) ^ 2 + (dy : ℝ) ^ 2) := by
  unfold exactFarther
  rw [decide_eq_true_iff]
  by_cases hc : c < 0
  · have hc2 : (c : ℝ) < 0 := by exact_mod_cast hc
    constructor
    · intro _
      exact lt_of_lt_of_le hc2 (Real.sqrt_nonneg _)
    · intro _
      exact Or.inl hc
  · have hc2 : (0 : ℝ) ≤ (c : ℝ) := by exact_mod_cast (not_lt.mp hc)
    rw [Real.lt_sqrt hc2]
    constructor
    · rintro (h | h)
      · exact absurd h hc
      · exact_mod_cast h
    · intro h
      exact Or.inr (by exact_mod_cast h)

theorem exactFarther_false_iff (dx dy c : ℚ) :
    exactFarther dx dy c = false ↔ Real.sqrt ((dx : ℝ) ^ 2 + (dy : ℝ) ^ 2) ≤ (c : ℝ) := by
  rw [← not_lt, ← exactFarther_iff]
  simp

/-! ## Landing on the Moon -/

theorem haveAll_iff (collected : List String) :
    haveAll collected = true ↔ ∀ pl ∈ PLANETS, pl.id ∈ collected := by
  simp [haveAll, List.all_eq_true]

theorem tooFar_eq_false_iff (T : Trig) (p : Player) (target : Body) :
    tooFar T p target = false ↔
      T.hypot (p.x - target.x) (p.y - target.y) ≤ target.r + 45 := by
  simp [tooFar]

/-- Claim C3: in a room without winner, for any player whose current target is `"moon"` and
who is within landing range of the Moon, that is, whose distance to the Moon as
`Math.hypot` returns it is at most the Moon's radius plus 45 (the range test of the
handler, for whatever double `Math.hypot` returns): `player:land` fails with the
incomplete-quest error and changes nothing when some planet id is missing from
`collected`; when all nine are there it succeeds with `deposited: true`, `done: true` and
sets `room.winner` to the player's id and name. -/
theorem land_moon_gate (T : Trig) (s : SocketId) (code : String) (c : Clock)
    (rooms : Registry) (room : Room) (p : Player)
    (hroom : getRoom rooms code = some room) (hw : room.winner = none)
    (hp : mapGet room.players s = some p)
    (ht : p.questOrder[p.questIndex]? = some "moon")
    (hr : T.hypot (p.x - MOON.x) (p.y - MOON.y) ≤ MOON.r + 45) :
    ((∃ pl ∈ PLANETS, pl.id ∉ p.collected) →
      (playerLand T s code c rooms).ack =
        landError "You must collect all planet items before depositing on the Moon." ∧
      (playerLand T s code c rooms).emits = [] ∧
      (playerLand T s code c rooms).rooms = rooms) ∧
    ((∀ pl ∈ PLANETS, pl.id ∈ p.collected) →
      (playerLand T s code c rooms).ack =
        { ok := true, deposited := some true, done := some true,
          winner := some { id := s, name := p.name, time := c 0 } } ∧
      getRoom (playerLand T s code c rooms).rooms code =
        some { room with winner := some { id := s, name := p.name, time := c 0 } }) := by
  have hfar : tooFar T p MOON = false := (tooFar_eq_false_iff T p MOON).mpr hr
  have hfind : findTarget "moon" = some MOON := by simp [findTarget]
  constructor
  · rintro ⟨pl, hpl, hmiss⟩
    have hna : haveAll p.collected = false := by
      rw [← Bool.not_eq_true, haveAll_iff]
      exact fun h => hmiss (h pl hpl)
    simp [playerLand, hroom, hw, hp, ht, hfind, hfar, hna]
  · intro hall
    have ha : haveAll p.collected = true := (haveAll_iff _).mpr hall
    simp only [playerLand, hroom, hw, hp, ht, hfind, hfar, ha]
    simp [getRoom, mapGet_mapSet_self]

/-- Witness for C3 on the registry `moonRooms`. -/
theorem land_moon_gate_witness :
    getRoom moonRooms "ABCDE" = some moonRoom ∧
    trigEast.hypot (pilotAtMoon.x - MOON.x) (pilotAtMoon.y - MOON.y) ≤ MOON.r + 45 ∧
    (playerLand trigEast sockA "ABCDE" clock0 moonRooms).ack =
      { ok := true, deposited := some true, done := some true,
        winner := some { id := sockA, name := "Ava", time := 0 } } := by
  refine ⟨rfl, by decide!, ?_⟩
  exact ((land_moon_gate trigEast sockA "ABCDE" clock0 moonRooms moonRoom pilotAtMoon rfl rfl
    (by simp [mapGet, moonRoom]) (by simp [pilotAtMoon])
    (by decide!)).2 (by decide)).1

/-! ## Restart authority -/

/-- Claim C8: `host:restartRoom` is for the host only. When the code names no room the
request fails with "Room not found", when the requesting socket is not `room.hostId` it
fails with "Only host can restart", and in both cases nothing is emitted and the registry
is left as it was. -/
theorem restart_host_only (s : SocketId) (code : String) (g : RandSrc) (c : Clock)
    (rooms : Registry) :
    (getRoom rooms code = none →
      hostRestartRoom s code g c rooms =
        ⟨{ ok := false, error := some "Room not found" }, [], rooms⟩) ∧
    (∀ room, getRoom rooms code = some room → room.hostId ≠ some s →
      hostRestartRoom s code g c rooms =
        ⟨{ ok := false, error := some "Only host can restart" }, [], rooms⟩) ∧
    ((hostRestartRoom s code g c rooms).ack.ok = true →
      ∃ room, getRoom rooms code = some room ∧ room.hostId = some s) := by
  refine ⟨?_, ?_, ?_⟩
  · intro h
    simp [hostRestartRoom, h]
  · intro room h hne
    simp [hostRestartRoom, h, hne]
  · intro hok
    unfold hostRestartRoom at hok
    cases hroom : getRoom rooms code with
    | none => simp [hroom] at hok
    | some room =>
      by_cases hh : room.hostId = some s
      · exact ⟨room, rfl, hh⟩
      · simp [hroom, hh] at hok

/-- Witness for C8: on `moonRooms`, hosted by `sockH`, a restart asked by `sockA` is
refused and a restart on an unknown code finds no room. -/
theorem restart_host_only_witness :
    hostRestartRoom sockA "ABCDE" randHalf clock0 moonRooms =
      ⟨{ ok := false, error := some "Only host can restart" }, [], moonRooms⟩ ∧
    hostRestartRoom sockH "ZZZZZ" randHalf clock0 moonRooms =
      ⟨{ ok := false, error := some "Room not found" }, [], moonRooms⟩ :=
  ⟨(restart_host_only sockA "ABCDE" randHalf clock0 moonRooms).2.1 _ rfl (by decide),
   (restart_host_only sockH "ZZZZZ" randHalf clock0 moonRooms).1 rfl⟩

/-! ## The three ways a landing ends -/

theorem getRoom_mapSet_self (rooms : Registry) (code : String) (room : Room) :
    getRoom (mapSet rooms code room) code = some room :=
  mapGet_mapSet_self _ _ _

theorem getRoom_mapSet_ne (rooms : Registry) (code code2 : String) (room : Room)
    (h : code2 ≠ code) : getRoom (mapSet rooms code room) code2 = getRoom rooms code2 :=
  mapGet_mapSet_ne _ _ _ _ h

theorem playerLand_cases (T : Trig) (s : SocketId) (code : String) (c : Clock) (rooms : Registry) :
    ((playerLand T s code c rooms).ack.ok = false ∧
      (playerLand T s code c rooms).ack.done = none ∧
      (playerLand T s code c rooms).rooms = rooms) ∨
    (∃ room p tid, getRoom rooms code = some room ∧ room.winner = none ∧
      mapGet room.players s = some p ∧ p.questOrder[p.questIndex]? = some tid ∧
      tid ≠ "moon" ∧
      (playerLand T s code c rooms).ack.ok = true ∧
      (playerLand T s code c rooms).ack.done = some false ∧
      (playerLand T s code c rooms).rooms =
        mapSet rooms code { room with players := mapSet room.players s (collect p tid) }) ∨
    (∃ room p, getRoom rooms code = some room ∧ room.winner = none ∧
      mapGet room.players s = some p ∧
      (playerLand T s code c rooms).ack.ok = true ∧
      (playerLand T s code c rooms).ack.done = some true ∧
      (playerLand T s code c rooms).rooms =
        mapSet rooms code
          { room with winner := some { id := s, name := p.name, time := c 0 } }) := by
  cases hroom : getRoom rooms code with
  | none => left; simp [playerLand, hroom, landError]
  | some room =>
    cases hw : room.winner with
    | some w => left; simp [playerLand, hroom, hw, landError]
    | none =>
      cases hp : mapGet room.players s with
      | none => left; simp [playerLand, hroom, hw, hp, landError]
      | some p =>
        cases ht : p.questOrder[p.questIndex]? with
        | none => left; simp [playerLand, hroom, hw, hp, ht, landError]
        | some tid =>
          cases hf : findTarget tid with
          | none => left; simp [playerLand, hroom, hw, hp, ht, hf, landError]
          | some target =>
            cases hfar : tooFar T p target with
            | true => left; simp [playerLand, hroom, hw, hp, ht, hf, hfar, landError]
            | false =>
              by_cases hm : tid = "moon"
              · subst hm
                cases ha : haveAll p.collected with
                | false => left; simp [playerLand, hroom, hw, hp, ht, hf, hfar, ha, landError]
                | true =>
                  right; right
                  refine ⟨room, p, rfl, hw, hp, ?_⟩
                  simp [playerLand, hroom, hw, hp, ht, hf, hfar, ha]
              · right; left
                refine ⟨room, p, tid, rfl, hw, hp, ht, hm, ?_⟩
                simp [playerLand, hroom, hw, hp, ht, hf, hfar, hm]

theorem playerLand_game_over (T : Trig) (s : SocketId) (code : String) (c : Clock)
    (rooms : Registry)
    (room : Room) (w : Winner) (hroom : getRoom rooms code = some room)
    (hw : room.winner = some w) :
    playerLand T s code c rooms = ⟨landError ("Game over. Winner: " ++ w.name), [], rooms⟩ := by
  simp [playerLand, hroom, hw]

theorem landSeq_game_over (T : Trig) (code : String) (reqs : List (SocketId × Clock))
    (rooms : Registry)
    (room : Room) (w : Winner) (hroom : getRoom rooms code = some room)
    (hw : room.winner = some w) :
    landSeq T code reqs rooms =
      (reqs.map (fun _ => landError ("Game over. Winner: " ++ w.name)), rooms) := by
  induction reqs with
  | nil => rfl
  | cons r rest ih =>
    simp only [landSeq, playerLand_game_over T r.1 code r.2 rooms room w hroom hw, ih,
      List.map_cons]

theorem landSeq_append (T : Trig) (code : String) (pre post : List (SocketId × Clock))
    (rooms : Registry) :
    landSeq T code (pre ++ post) rooms =
      ((landSeq T code pre rooms).1 ++ (landSeq T code post (landSeq T code pre rooms).2).1,
        (landSeq T code post (landSeq T code pre rooms).2).2) := by
  induction pre generalizing rooms with
  | nil => rfl
  | cons r rest ih =>
    show ((playerLand T r.1 code r.2 rooms).ack ::
        (landSeq T code (rest ++ post) (playerLand T r.1 code r.2 rooms).rooms).1,
      (landSeq T code (rest ++ post) (playerLand T r.1 code r.2 rooms).rooms).2) = _
    rw [ih]
    rfl

theorem landSeq_done_count (T : Trig) (code : String) (reqs : List (SocketId × Clock))
    (rooms : Registry) :
    ((landSeq T code reqs rooms).1.filter (fun a => decide (a.done = some true))).length ≤ 1 := by
  induction reqs generalizing rooms with
  | nil => simp [landSeq]
  | cons r rest ih =>
    simp only [landSeq]
    rcases playerLand_cases T r.1 code r.2 rooms with h | h | h
    · have hd : ¬ (playerLand T r.1 code r.2 rooms).ack.done = some true := by
        rw [h.2.1]; simp
      rw [List.filter_cons_of_neg (by simpa using hd)]
      exact ih _
    · obtain ⟨room, p, tid, _, _, _, _, _, _, hdone, _⟩ := h
      have hd : ¬ (playerLand T r.1 code r.2 rooms).ack.done = some true := by
        rw [hdone]; simp
      rw [List.filter_cons_of_neg (by simpa using hd)]
      exact ih _
    · obtain ⟨room, p, _, _, _, _, hdone, hrooms⟩ := h
      rw [List.filter_cons_of_pos (by simpa using hdone)]
      rw [hrooms, landSeq_game_over T code rest _ _ _ (getRoom_mapSet_self _ _ _) rfl]
      simp [landError]

/-! ## At most one winner over back-to-back landings -/

theorem landSeq_one_winner (T : Trig) (code : String) (reqs : List (SocketId × Clock))
    (rooms : Registry) :
    ((landSeq T code reqs rooms).1.filter (fun a => decide (a.done = some true))).length ≤ 1 ∧
    (∀ pre post room w, reqs = pre ++ post →
      getRoom (landSeq T code pre rooms).2 code = some room → room.winner = some w →
      (landSeq T code reqs rooms).1 =
        (landSeq T code pre rooms).1 ++
          post.map (fun _ => landError ("Game over. Winner: " ++ w.name)) ∧
      (landSeq T code reqs rooms).2 = (landSeq T code pre rooms).2) := by
  refine ⟨landSeq_done_count T code reqs rooms, ?_⟩
  intro pre post room w hsplit hroom hw
  subst hsplit
  rw [landSeq_append, landSeq_game_over T code post _ room w hroom hw]
  exact ⟨rfl, rfl⟩

/-! ## Monotone quest progress -/

theorem collect_index_le (p : Player) (tid : String) :
    p.questIndex ≤ (collect p tid).questIndex := by
  unfold collect
  dsimp only
  split <;> omega

theorem collect_collected_sub (p : Player) (tid : String) :
    ∀ id ∈ p.collected, id ∈ (collect p tid).collected := by
  intro id hid
  unfold collect
  dsimp only
  split
  · exact hid
  · exact List.mem_append_left _ hid

theorem playerLand_keeps (T : Trig) (s : SocketId) (code : String) (c : Clock) (rooms : Registry)
    (code2 : String) (s2 : SocketId) (room2 : Room) (p2 : Player)
    (hroom : getRoom rooms code2 = some room2) (hp : mapGet room2.players s2 = some p2) :
    ∃ room3 p3, getRoom (playerLand T s code c rooms).rooms code2 = some room3 ∧
      mapGet room3.players s2 = some p3 ∧
      p2.questIndex ≤ p3.questIndex ∧ (∀ id ∈ p2.collected, id ∈ p3.collected) := by
  rcases playerLand_cases T s code c rooms with h | h | h
  · rw [h.2.2]
    exact ⟨room2, p2, hroom, hp, le_refl _, fun _ h => h⟩
  · obtain ⟨room, p, tid, hr, _, hpl, _, _, _, _, hrooms⟩ := h
    rw [hrooms]
    by_cases hc : code2 = code
    · subst hc
      rw [hroom] at hr
      cases hr
      by_cases hs : s2 = s
      · subst hs
        rw [hp] at hpl
        cases hpl
        exact ⟨_, collect p2 tid, getRoom_mapSet_self _ _ _, mapGet_mapSet_self _ _ _,
          collect_index_le _ _, collect_collected_sub _ _⟩
      · refine ⟨_, p2, getRoom_mapSet_self _ _ _, ?_, le_refl _, fun _ h => h⟩
        show mapGet (mapSet room2.players s (collect p tid)) s2 = some p2
        rw [mapGet_mapSet_ne _ _ _ _ hs]
        exact hp
    · rw [getRoom_mapSet_ne _ _ _ _ hc]
      exact ⟨room2, p2, hroom, hp, le_refl _, fun _ h => h⟩
  · obtain ⟨room, p, hr, _, _, _, _, hrooms⟩ := h
    rw [hrooms]
    by_cases hc : code2 = code
    · subst hc
      rw [hroom] at hr
      cases hr
      exact ⟨_, p2, getRoom_mapSet_self _ _ _, hp, le_refl _, fun _ h => h⟩
    · rw [getRoom_mapSet_ne _ _ _ _ hc]
      exact ⟨room2, p2, hroom, hp, le_refl _, fun _ h => h⟩

/-- Claim C5: a `player:land` request, successful or failed, leaves every player in place
with a `questIndex` at least as large as before and with every id of its former
`collected` still in `collected`; and so does every sequence of landing requests. -/
theorem land_monotone (T : Trig) (rooms : Registry) (code2 : String) (s2 : SocketId) (room2 : Room)
    (p2 : Player) (hroom : getRoom rooms code2 = some room2)
    (hp : mapGet room2.players s2 = some p2) :
    (∀ s code c, ∃ room3 p3, getRoom (playerLand T s code c rooms).rooms code2 = some room3 ∧
      mapGet room3.players s2 = some p3 ∧
      p2.questIndex ≤ p3.questIndex ∧ (∀ id ∈ p2.collected, id ∈ p3.collected)) ∧
    (∀ code reqs, ∃ room3 p3, getRoom (landSeq T code reqs rooms).2 code2 = some room3 ∧
      mapGet room3.players s2 = some p3 ∧
      p2.questIndex ≤ p3.questIndex ∧ (∀ id ∈ p2.collected, id ∈ p3.collected)) := by
  refine ⟨fun s code c => playerLand_keeps T s code c rooms code2 s2 room2 p2 hroom hp, ?_⟩
  intro code reqs
  induction reqs generalizing rooms room2 p2 with
  | nil => exact ⟨room2, p2, hroom, hp, le_refl _, fun _ h => h⟩
  | cons r rest ih =>
    obtain ⟨room3, p3, h3, hp3, hi3, hc3⟩ :=
      playerLand_keeps T r.1 code r.2 rooms code2 s2 room2 p2 hroom hp
    obtain ⟨room4, p4, h4, hp4, hi4, hc4⟩ := ih _ room3 p3 h3 hp3
    exact ⟨room4, p4, h4, hp4, le_trans hi3 hi4, fun id hid => hc4 id (hc3 id hid)⟩

/-- Witness for C5: the landing of `sockA` on the registry `moonRooms`. -/
theorem land_monotone_witness :
    ∃ room3 p3,
      getRoom (playerLand trigEast sockA "ABCDE" clock0 moonRooms).rooms "ABCDE" = some room3 ∧
      mapGet room3.players sockA = some p3 ∧
      pilotAtMoon.questIndex ≤ p3.questIndex ∧
      (∀ id ∈ pilotAtMoon.collected, id ∈ p3.collected) :=
  (land_monotone trigEast moonRooms "ABCDE" sockA moonRoom pilotAtMoon rfl
    (by simp [mapGet, moonRoom])).1 sockA "ABCDE" clock0

/-! ## Rooms after a disconnect -/

theorem truthyHost_eq_isSome (h : Option SocketId) : truthyHost h = h.isSome := by
  cases h with
  | none => rfl
  | some s => simp [truthyHost, s.nonempty]

theorem isAbandoned_iff (room : Room) :
    isAbandoned room = true ↔ room.hostId = none ∧ room.players = [] := by
  simp [isAbandoned, truthyHost_eq_isSome, List.length_eq_zero]

theorem disconnect_rooms_eq (s : SocketId) (rooms : Registry) :
    (disconnect s rooms).2 =
      (rooms.map (fun e => (e.1, clearSocket s e.2))).filter
        (fun e => !(isAbandoned e.2)) := by
  induction rooms with
  | nil => rfl
  | cons e rest ih =>
    simp only [disconnect, List.map_cons, List.filter_cons]
    cases ha : isAbandoned (clearSocket s e.2) with
    | true => simpa using ih
    | false =>
      by_cases hc : changedBy s e.2 = true
      · simp [hc, ih]
      · simp [hc, ih]

theorem clearSocket_clean (s : SocketId) (room : Room) :
    (clearSocket s room).hostId ≠ some s ∧ s ∉ mapKeys (clearSocket s room).players := by
  constructor
  · unfold clearSocket
    dsimp only
    split
    · simp
    · assumption
  · exact not_mem_mapKeys_mapDelete _ _

theorem clearSocket_other_host (s h : SocketId) (room : Room) (hh : room.hostId = some h)
    (hne : h ≠ s) (hp : room.players = []) : clearSocket s room = room := by
  have h1 : ¬ some h = some s := fun h2 => hne (Option.some.inj h2)
  cases room with
  | mk hostId players winner createdAt =>
    simp only at hh hp
    subst hh; subst hp
    simp [clearSocket, mapDelete, h1]

/-- Claim C6: after the `disconnect` handler of socket `s`, no room left in the registry
has `s` as host or as a player key; the registry is what remains of the cleared rooms
once those with no host and no player are dropped, so a room goes exactly when, cleared of
`s`, it has no host and zero players; a room with another host and zero players stays as
it is; and no room without host and players remains. -/
theorem disconnect_spec (s : SocketId) (rooms : Registry) :
    (∀ e ∈ (disconnect s rooms).2, e.2.hostId ≠ some s ∧ s ∉ mapKeys e.2.players) ∧
    (disconnect s rooms).2 =
      (rooms.map (fun e => (e.1, clearSocket s e.2))).filter
        (fun e => !(decide (e.2.hostId = none ∧ e.2.players = []))) ∧
    (∀ e ∈ rooms, ((e.1, clearSocket s e.2) ∈ (disconnect s rooms).2 ↔
      ¬ ((clearSocket s e.2).hostId = none ∧ (clearSocket s e.2).players = []))) ∧
    (∀ e ∈ rooms, ∀ h, e.2.hostId = some h → h ≠ s → e.2.players = [] →
      e ∈ (disconnect s rooms).2) ∧
    (∀ e ∈ (disconnect s rooms).2, ¬ (e.2.hostId = none ∧ e.2.players = [])) := by
  have hmem : ∀ e, e ∈ (disconnect s rooms).2 ↔
      (∃ e0 ∈ rooms, e = (e0.1, clearSocket s e0.2)) ∧
        ¬ (e.2.hostId = none ∧ e.2.players = []) := by
    intro e
    rw [disconnect_rooms_eq, List.mem_filter, List.mem_map]
    constructor
    · rintro ⟨⟨e0, h0, rfl⟩, ha⟩
      refine ⟨⟨e0, h0, rfl⟩, ?_⟩
      rw [← isAbandoned_iff]
      simpa using ha
    · rintro ⟨⟨e0, h0, rfl⟩, ha⟩
      refine ⟨⟨e0, h0, rfl⟩, ?_⟩
      rw [← isAbandoned_iff] at ha
      simpa using ha
  refine ⟨?_, ?_, ?_, ?_, ?_⟩
  · intro e he
    obtain ⟨⟨e0, _, rfl⟩, _⟩ := (hmem e).mp he
    exact clearSocket_clean s e0.2
  · rw [disconnect_rooms_eq]
    congr 1
    funext e
    rw [Bool.eq_iff_iff]
    rw [Bool.not_eq_true', Bool.not_eq_true', ← Bool.not_eq_true, isAbandoned_iff]
    simp
  · intro e he
    rw [hmem]
    constructor
    · exact fun h => h.2
    · exact fun h => ⟨⟨e, he, rfl⟩, h⟩
  · intro e he h hh hne hp
    rw [hmem]
    refine ⟨⟨e, he, ?_⟩, ?_⟩
    · rw [clearSocket_other_host s h e.2 hh hne hp]
    · rw [hh]; simp
  · intro e he
    exact ((hmem e).mp he).2

/-! ## Rooms after a leave -/

theorem roomLeave_keeps_room (s : SocketId) (code : String) (rooms : Registry) (room : Room)
    (hroom : getRoom rooms code = some room) :
    getRoom (roomLeave s code rooms).2 code =
      some { room with players := mapDelete room.players s } := by
  simp only [roomLeave, hroom]
  exact getRoom_mapSet_self _ _ _

/-- Claim C7, evaluated on a run of the server: `sockH` creates a room, `sockA` joins it,
`sockH` disconnects and `sockA` sends `room:leave`. The room then has no host and no
player, and it is still in the registry, where the `disconnect` handler would have
deleted it. -/
theorem leave_keeps_abandoned_room :
    Reachable trigEast
      (step trigEast (Event.leave sockA "SSSSS") randHalf clock0
        (step trigEast (Event.disconnect sockH) randHalf clock0
          (step trigEast (Event.playerJoin sockA "SSSSS" (some "Ava")) randHalf clock0
            (step trigEast (Event.createRoom sockH 1) randHalf clock0 [])))) ∧
    getRoom
      (step trigEast (Event.disconnect sockH) randHalf clock0
        (step trigEast (Event.playerJoin sockA "SSSSS" (some "Ava")) randHalf clock0
          (step trigEast (Event.createRoom sockH 1) randHalf clock0 []))) "SSSSS" =
      some
        { hostId := none
          players := [(sockA, pilotAtStart)]
          winner := none
          createdAt := 0 } ∧
    getRoom
      (step trigEast (Event.leave sockA "SSSSS") randHalf clock0
        (step trigEast (Event.disconnect sockH) randHalf clock0
          (step trigEast (Event.playerJoin sockA "SSSSS" (some "Ava")) randHalf clock0
            (step trigEast (Event.createRoom sockH 1) randHalf clock0 [])))) "SSSSS" =
      some { hostId := none, players := [], winner := none, createdAt := 0 } ∧
    (disconnect sockB
      (step trigEast (Event.leave sockA "SSSSS") randHalf clock0
        (step trigEast (Event.disconnect sockH) randHalf clock0
          (step trigEast (Event.playerJoin sockA "SSSSS" (some "Ava")) randHalf clock0
            (step trigEast (Event.createRoom sockH 1) randHalf clock0 []))))).2 = [] := by
  refine ⟨?_, ?_, ?_, ?_⟩
  · exact Reachable.step (Reachable.step (Reachable.step
      (Reachable.step Reachable.init _ _ _) _ _ _) _ _ _) _ _ _
  · decide!
  · decide!
  · decide!

/-! ## Restart by the host -/

theorem respawn_respawned (old : Player) (players : List (SocketId × Player)) (g : RandSrc)
    (t : Nat) : Respawned (respawn old players g t) := by
  have h := makeQuestOrder_shape (pickSpawnPlanet players g).2
  exact ⟨rfl, rfl, h.1, h.2.1, h.2.2.2.2, rfl, rfl, rfl, rfl⟩

theorem respawn_identity (old : Player) (players : List (SocketId × Player)) (g : RandSrc)
    (t : Nat) :
    (respawn old players g t).name = old.name ∧ (respawn old players g t).color = old.color :=
  ⟨rfl, rfl⟩

theorem restartLoop_mem (existing acc : List (SocketId × Player)) (g : RandSrc) (c : Clock)
    (q : SocketId × Player) (hq : q ∈ (restartLoop existing acc g c).1) :
    q ∈ acc ∨ (Respawned q.2 ∧
      ∃ old, (q.1, old) ∈ existing ∧ q.2.name = old.name ∧ q.2.color = old.color) := by
  induction existing generalizing acc g c with
  | nil => exact Or.inl hq
  | cons e rest ih =>
    simp only [restartLoop] at hq
    rcases ih _ _ _ hq with h | ⟨hf, old, hold, hn⟩
    · rcases mem_mapSet _ _ _ _ h with h2 | h2
      · exact Or.inl h2
      · right
        subst h2
        exact ⟨respawn_respawned _ _ _ _, e.2, List.mem_cons_self _ _,
          (respawn_identity _ _ _ _).1, (respawn_identity _ _ _ _).2⟩
    · exact Or.inr ⟨hf, old, List.mem_cons_of_mem _ hold, hn⟩

theorem restartLoop_keys (existing acc : List (SocketId × Player)) (g : RandSrc) (c : Clock)
    (hnd : (mapKeys acc ++ mapKeys existing).Nodup) :
    mapKeys (restartLoop existing acc g c).1 = mapKeys acc ++ mapKeys existing := by
  induction existing generalizing acc g c with
  | nil => simp [restartLoop, mapKeys]
  | cons e rest ih =>
    have hnot : e.1 ∉ mapKeys acc := by
      intro hin
      have := (List.nodup_append.mp hnd).2.2
      exact this hin (by simp [mapKeys])
    have hk : mapKeys (mapSet acc e.1 (respawn e.2 acc g (c 0))) = mapKeys acc ++ [e.1] := by
      rw [mapKeys_mapSet, if_neg hnot]
    simp only [restartLoop]
    rw [ih]
    · rw [hk]; simp [mapKeys]
    · rw [hk]
      simpa [mapKeys] using hnd

theorem restart_players (room : Room) (g : RandSrc) (c : Clock)
    (hnd : (mapKeys room.players).Nodup) :
    mapKeys (restartLoop room.players [] g c).1 = mapKeys room.players ∧
    (∀ q ∈ (restartLoop room.players [] g c).1, Respawned q.2) ∧
    (∀ id old, mapGet room.players id = some old →
      ∃ p, mapGet (restartLoop room.players [] g c).1 id = some p ∧
        p.name = old.name ∧ p.color = old.color ∧ Respawned p) := by
  have hkeys : mapKeys (restartLoop room.players [] g c).1 = mapKeys room.players := by
    rw [restartLoop_keys _ _ _ _ (by simpa [mapKeys] using hnd)]
    simp [mapKeys]
  have hall : ∀ q ∈ (restartLoop room.players [] g c).1, Respawned q.2 ∧
      ∃ old, (q.1, old) ∈ room.players ∧ q.2.name = old.name ∧ q.2.color = old.color := by
    intro q hq
    rcases restartLoop_mem _ _ _ _ q hq with h | h
    · simp at h
    · exact h
  refine ⟨hkeys, fun q hq => (hall q hq).1, ?_⟩
  intro id old hold
  have hin : id ∈ mapKeys (restartLoop room.players [] g c).1 := by
    rw [hkeys]
    exact List.mem_map_of_mem Prod.fst (mem_of_mapGet _ _ _ hold)
  obtain ⟨q, hq, hqid⟩ := List.mem_map.mp hin
  obtain ⟨hf, old2, hold2, hname, hcolor⟩ := hall q hq
  have hold3 : mapGet room.players q.1 = some old2 := mapGet_of_mem_nodup _ _ _ hnd hold2
  rw [hqid, hold] at hold3
  cases hold3
  refine ⟨q.2, ?_, hname, hcolor, hf⟩
  apply mapGet_of_mem_nodup _ _ _ (by rw [hkeys]; exact hnd)
  rw [← hqid]
  exact hq

/-- Claim C9: after `host:restartRoom` by the host of a room (whose player map has unique
keys, as every `Map` has), for every outcome of the random source: the request is
acknowledged, `room.winner` is `null`, the player ids are the same as before, and every
player keeps its name and color and has `questIndex` 0, an empty `collected`, a
`questOrder` of length 10 that is a permutation of the nine planet ids followed by
`"moon"`, angle 0, speed 0, all four input flags false and the position
`spawnNearPlanet(spawnPlanetId)`. -/
theorem restart_resets (s : SocketId) (code : String) (g : RandSrc) (c : Clock)
    (rooms : Registry) (room : Room) (hroom : getRoom rooms code = some room)
    (hhost : room.hostId = some s) (hnd : (mapKeys room.players).Nodup) :
    (hostRestartRoom s code g c rooms).ack = { ok := true } ∧
    ∃ room2, getRoom (hostRestartRoom s code g c rooms).rooms code = some room2 ∧
      room2.winner = none ∧
      mapKeys room2.players = mapKeys room.players ∧
      (∀ id old, mapGet room.players id = some old →
        ∃ p, mapGet room2.players id = some p ∧ p.name = old.name ∧ p.color = old.color) ∧
      (∀ id p, mapGet room2.players id = some p →
        p.questIndex = 0 ∧ p.collected = [] ∧
        p.questOrder.length = 10 ∧ List.Perm (p.questOrder.take 9) planetIds ∧
        p.questOrder[9]? = some "moon" ∧
        p.angle = 0 ∧ p.speed = 0 ∧
        p.input = { up := false, down := false, left := false, right := false } ∧
        (p.x, p.y) = spawnNearPlanet p.spawnPlanetId) := by
  obtain ⟨hkeys, hall, hold⟩ := restart_players room g c hnd
  have hne : ¬ room.hostId ≠ some s := fun h => h hhost
  have hack : (hostRestartRoom s code g c rooms).ack = { ok := true } := by
    simp only [hostRestartRoom, hroom, if_neg hne]
  have hrooms : (hostRestartRoom s code g c rooms).rooms =
      mapSet rooms code
        { room with winner := none, players := (restartLoop room.players [] g c).1 } := by
    simp only [hostRestartRoom, hroom, if_neg hne]
  rw [hrooms]
  refine ⟨hack, _, getRoom_mapSet_self _ _ _, rfl, hkeys, ?_, ?_⟩
  · intro id old h
    obtain ⟨p, hp, hn, hc, _⟩ := hold id old h
    exact ⟨p, hp, hn, hc⟩
  · intro id p hp
    exact hall (id, p) (mem_of_mapGet _ _ _ hp)

/-- Witness for C9: the host `sockH` restarts the room of `moonRooms`. -/
theorem restart_resets_witness :
    (hostRestartRoom sockH "ABCDE" randHalf clock0 moonRooms).ack = { ok := true } ∧
    ∃ room2, getRoom (hostRestartRoom sockH "ABCDE" randHalf clock0 moonRooms).rooms "ABCDE" =
        some room2 ∧
      room2.winner = none ∧
      mapKeys room2.players = mapKeys moonRoom.players ∧
      (∀ id old, mapGet moonRoom.players id = some old →
        ∃ p, mapGet room2.players id = some p ∧ p.name = old.name ∧ p.color = old.color) ∧
      (∀ id p, mapGet room2.players id = some p →
        p.questIndex = 0 ∧ p.collected = [] ∧
        p.questOrder.length = 10 ∧ List.Perm (p.questOrder.take 9) planetIds ∧
        p.questOrder[9]? = some "moon" ∧
        p.angle = 0 ∧ p.speed = 0 ∧
        p.input = { up := false, down := false, left := false, right := false } ∧
        (p.x, p.y) = spawnNearPlanet p.spawnPlanetId) :=
  restart_resets sockH "ABCDE" randHalf clock0 moonRooms moonRoom rfl rfl (by decide)

/-! ## The tick in a room with a winner -/

theorem tick_frozen_room (T : Trig) (rooms : Registry) (c : Clock) (code : String)
    (room : Room) (hroom : getRoom rooms code = some room)
    (hw : room.winner.isSome = true) :
    getRoom (tick T rooms c).2 code = some room ∧
    { target := Target.room code, event := "room:tick",
      payload := Payload.state (some (roomSnapshot code room)) } ∈ (tick T rooms c).1 := by
  induction rooms generalizing c with
  | nil => simp [getRoom, mapGet] at hroom
  | cons e rest ih =>
    by_cases hk : e.1 = code
    · have he : e.2 = room := by
        simpa [getRoom, mapGet, hk] using hroom
      have hw2 : e.2.winner.isSome = true := by rw [he]; exact hw
      simp only [tick, hw2, if_true]
      constructor
      · simp [getRoom, mapGet, hk, he]
      · rw [hk, he]
        exact List.mem_cons_self _ _
    · have hrest : getRoom rest code = some room := by
        simpa [getRoom, mapGet, hk] using hroom
      by_cases hw2 : e.2.winner.isSome = true
      · simp only [tick, hw2, if_true]
        obtain ⟨h1, h2⟩ := ih c hrest
        constructor
        · simpa [getRoom, mapGet, hk] using h1
        · exact List.mem_cons_of_mem _ h2
      · simp only [tick, hw2]
        obtain ⟨h1, h2⟩ := ih (tickPlayers T e.2.players c).2 hrest
        constructor
        · simpa [getRoom, mapGet, hk] using h1
        · exact List.mem_cons_of_mem _ h2

/-- Claim C10: for a room whose winner is set, whatever the input flags of its players, one
tick leaves the room as it was, so every player keeps its `x`, `y`, `angle` and `speed`,
and the tick still emits a `room:tick` snapshot of that room. -/
theorem tick_frozen (T : Trig) (rooms : Registry) (c : Clock) (code : String) (room : Room)
    (hroom : getRoom rooms code = some room) (hw : room.winner.isSome = true) :
    (∀ s p, mapGet room.players s = some p →
      ∃ room2 p2, getRoom (tick T rooms c).2 code = some room2 ∧
        mapGet room2.players s = some p2 ∧
        p2.x = p.x ∧ p2.y = p.y ∧ p2.angle = p.angle ∧ p2.speed = p.speed) ∧
    { target := Target.room code, event := "room:tick",
      payload := Payload.state (publicRoomState (tick T rooms c).2 code) } ∈
      (tick T rooms c).1 ∧
    publicRoomState (tick T rooms c).2 code = publicRoomState rooms code := by
  obtain ⟨h1, h2⟩ := tick_frozen_room T rooms c code room hroom hw
  have hpub : publicRoomState (tick T rooms c).2 code = some (roomSnapshot code room) := by
    unfold publicRoomState
    unfold getRoom at h1
    rw [h1]; rfl
  have hpub0 : publicRoomState rooms code = some (roomSnapshot code room) := by
    unfold publicRoomState
    unfold getRoom at hroom
    rw [hroom]; rfl
  refine ⟨?_, ?_, ?_⟩
  · intro s p hp
    exact ⟨room, p, h1, hp, rfl, rfl, rfl, rfl⟩
  · rw [hpub]; exact h2
  · rw [hpub, hpub0]

/-- Witness for C10: a tick on the registry holding `wonRoom`, where the player holds the
up and right keys. -/
theorem tick_frozen_witness :
    (∀ s p, mapGet wonRoom.players s = some p →
      ∃ room2 p2, getRoom (tick trigEast [("ABCDE", wonRoom)] clock0).2 "ABCDE" = some room2 ∧
        mapGet room2.players s = some p2 ∧
        p2.x = p.x ∧ p2.y = p.y ∧ p2.angle = p.angle ∧ p2.speed = p.speed) ∧
    { target := Target.room "ABCDE", event := "room:tick",
      payload := Payload.state
        (publicRoomState (tick trigEast [("ABCDE", wonRoom)] clock0).2 "ABCDE") } ∈
      (tick trigEast [("ABCDE", wonRoom)] clock0).1 ∧
    publicRoomState (tick trigEast [("ABCDE", wonRoom)] clock0).2 "ABCDE" =
      publicRoomState [("ABCDE", wonRoom)] "ABCDE" :=
  tick_frozen trigEast [("ABCDE", wonRoom)] clock0 "ABCDE" wonRoom rfl rfl

/-! ## The quest invariant -/

theorem Respawned.questInv {p : Player} (h : Respawned p) : QuestInv p := by
  obtain ⟨hi, hc, hl, hperm, hm, _⟩ := h
  refine ⟨hl, hperm, hm, by omega, ?_⟩
  rw [hi, hc]; rfl

theorem moon_not_planet : "moon" ∉ planetIds := by decide

theorem QuestInv.order_eq {p : Player} (h : QuestInv p) :
    p.questOrder = p.questOrder.take 9 ++ ["moon"] := by
  obtain ⟨hl, _, hm, _, _⟩ := h
  have hd : p.questOrder.drop 9 = ["moon"] := by
    obtain ⟨h9, hget⟩ := List.getElem?_eq_some_iff.mp hm
    rw [List.drop_eq_getElem_cons h9, hget, List.drop_of_length_le (by omega)]
  conv_lhs => rw [← List.take_append_drop 9 p.questOrder]
  rw [hd]

theorem QuestInv.order_nodup {p : Player} (h : QuestInv p) : p.questOrder.Nodup := by
  rw [h.order_eq, List.nodup_append]
  refine ⟨h.2.1.nodup_iff.mpr planetIds_nodup, by simp, ?_⟩
  intro a ha hb
  have hb2 : a = "moon" := by simpa using hb
  subst hb2
  exact moon_not_planet (h.2.1.mem_iff.mp ha)

theorem not_mem_take_of_nodup {l : List String} (hn : l.Nodup) {i : Nat} {x : String}
    (hx : l[i]? = some x) : x ∉ l.take i := by
  obtain ⟨hi, hget⟩ := List.getElem?_eq_some_iff.mp hx
  intro hmem
  conv at hn => rw [← List.take_append_drop i l]
  rw [List.nodup_append] at hn
  have hd : x ∈ l.drop i := by
    rw [List.drop_eq_getElem_cons hi, hget]
    exact List.mem_cons_self _ _
  exact hn.2.2 hmem hd

theorem QuestInv.target {p : Player} (h : QuestInv p) :
    ∃ tid, p.questOrder[p.questIndex]? = some tid ∧
      ((tid = "moon" ∧ p.questIndex = 9) ∨
        (tid ∈ planetIds ∧ tid ≠ "moon" ∧ p.questIndex < 9)) := by
  have hlt : p.questIndex < p.questOrder.length := by have := h.1; have := h.2.2.2.1; omega
  refine ⟨p.questOrder[p.questIndex], List.getElem?_eq_getElem hlt, ?_⟩
  by_cases h9 : p.questIndex = 9
  · left
    refine ⟨?_, h9⟩
    have := h.2.2.1
    rw [List.getElem?_eq_some_iff] at this
    obtain ⟨_, hget⟩ := this
    simp only [h9]
    exact hget
  · right
    have hlt9 : p.questIndex < 9 := by have := h.2.2.2.1; omega
    have hmem : p.questOrder[p.questIndex] ∈ p.questOrder.take 9 := by
      rw [List.mem_take_iff_getElem]
      exact ⟨p.questIndex, by omega, rfl⟩
    have hpl : p.questOrder[p.questIndex] ∈ planetIds := h.2.1.mem_iff.mp hmem
    exact ⟨hpl, fun hm => moon_not_planet (hm ▸ hpl), hlt9⟩

theorem collect_questInv {p : Player} (h : QuestInv p) {tid : String}
    (ht : p.questOrder[p.questIndex]? = some tid) (hm : tid ≠ "moon") :
    QuestInv (collect p tid) := by
  obtain ⟨tid2, ht2, hcase⟩ := h.target
  rw [ht] at ht2
  cases ht2
  rcases hcase with ⟨h1, _⟩ | ⟨_, _, hlt⟩
  · exact absurd h1 hm
  · obtain ⟨hl, hperm, hmoon, _, hcol⟩ := h
    have hnot : tid ∉ p.collected := by
      rw [hcol]
      exact not_mem_take_of_nodup (QuestInv.order_nodup ⟨hl, hperm, hmoon, by omega, hcol⟩) ht
    have hidx : (p.questIndex : ℤ) < (p.questOrder.length : ℤ) - 1 := by
      rw [hl]; omega
    have hc : (collect p tid).collected = p.collected ++ [tid] := by
      simp [collect, hnot]
    have hi : (collect p tid).questIndex = p.questIndex + 1 := by
      simp only [collect, if_pos hidx]
    refine ⟨hl, hperm, hmoon, by rw [hi]; omega, ?_⟩
    have ho : (collect p tid).questOrder = p.questOrder := rfl
    rw [hc, hi, ho, hcol, List.take_succ, ht]
    rfl

theorem haveAll_of_questInv {p : Player} (h : QuestInv p) (h9 : p.questIndex = 9) :
    haveAll p.collected = true := by
  rw [haveAll_iff]
  intro pl hpl
  rw [h.2.2.2.2, h9]
  exact h.2.1.mem_iff.mpr (List.mem_map_of_mem _ hpl)

theorem findTarget_planet_isSome : ∀ tid ∈ planetIds, (findTarget tid).isSome = true := by
  decide

theorem findTarget_of_planet {tid : String} (h : tid ∈ planetIds) :
    ∃ target, findTarget tid = some target :=
  Option.isSome_iff_exists.mp (findTarget_planet_isSome tid h)

/-! ## The quest invariant holds in every reachable registry -/

theorem RegistryInv.mapSet {rooms : Registry} (h : RegistryInv rooms) (code : String)
    (room : Room) (hroom : ∀ q ∈ room.players, QuestInv q.2) :
    RegistryInv (mapSet rooms code room) := by
  intro e he q hq
  rcases mem_mapSet _ _ _ _ he with h1 | h1
  · exact h e h1 q hq
  · subst h1
    exact hroom q hq

theorem RegistryInv.room {rooms : Registry} (h : RegistryInv rooms) {code : String}
    {room : Room} (hroom : getRoom rooms code = some room) :
    ∀ q ∈ room.players, QuestInv q.2 :=
  h (code, room) (mem_of_mapGet _ _ _ hroom)

theorem players_mapSet_inv {players : List (SocketId × Player)}
    (h : ∀ q ∈ players, QuestInv q.2) (s : SocketId) (p : Player) (hp : QuestInv p) :
    ∀ q ∈ mapSet players s p, QuestInv q.2 := by
  intro q hq
  rcases mem_mapSet _ _ _ _ hq with h1 | h1
  · exact h q h1
  · subst h1; exact hp

theorem inv_hostCreateRoom {rooms : Registry} (h : RegistryInv rooms) (fuel : Nat)
    (s : SocketId) (g : RandSrc) (c : Clock) (o : Outcome (Ack × String))
    (ho : hostCreateRoom fuel s g c rooms = some o) : RegistryInv o.rooms := by
  unfold hostCreateRoom at ho
  cases hcode : freshRoomCode fuel rooms g with
  | none => simp [hcode] at ho
  | some code =>
    simp only [hcode, Option.map_some', Option.some.injEq] at ho
    subst ho
    exact h.mapSet _ _ (by simp)

theorem inv_hostJoinRoom {rooms : Registry} (h : RegistryInv rooms) (s : SocketId)
    (code : String) : RegistryInv (hostJoinRoom s code rooms).rooms := by
  cases hroom : getRoom rooms code with
  | none => simp only [hostJoinRoom, hroom]; exact h
  | some room =>
    simp only [hostJoinRoom, hroom]
    exact h.mapSet _ _ (fun q hq => h.room hroom q hq)

theorem inv_hostRestartRoom {rooms : Registry} (h : RegistryInv rooms) (s : SocketId)
    (code : String) (g : RandSrc) (c : Clock) :
    RegistryInv (hostRestartRoom s code g c rooms).rooms := by
  cases hroom : getRoom rooms code with
  | none => simp only [hostRestartRoom, hroom]; exact h
  | some room =>
    by_cases hh : room.hostId ≠ some s
    · simp only [hostRestartRoom, hroom, if_pos hh]; exact h
    · simp only [hostRestartRoom, hroom, if_neg hh]
      apply h.mapSet
      intro q hq
      rcases restartLoop_mem _ _ _ _ q hq with h1 | h1
      · simp at h1
      · exact h1.1.questInv

theorem inv_playerJoinRoom {rooms : Registry} (h : RegistryInv rooms) (s : SocketId)
    (code : String) (name : Option String) (g : RandSrc) (c : Clock) :
    RegistryInv (playerJoinRoom s code name g c rooms).rooms := by
  cases hroom : getRoom rooms code with
  | none => simp only [playerJoinRoom, hroom]; exact h
  | some room =>
    simp only [playerJoinRoom, hroom]
    apply h.mapSet
    apply players_mapSet_inv (h.room hroom)
    have hq := makeQuestOrder_shape (randomColor (pickSpawnPlanet room.players g).2).2
    exact ⟨hq.1, hq.2.1, hq.2.2.2.2, Nat.zero_le _, rfl⟩

theorem inv_playerInput {rooms : Registry} (h : RegistryInv rooms) (s : SocketId)
    (code : String) (input : Option Input) (c : Clock) :
    RegistryInv (playerInput s code input c rooms) := by
  cases hroom : getRoom rooms code with
  | none => simp only [playerInput, hroom]; exact h
  | some room =>
    cases hp : mapGet room.players s with
    | none => simp only [playerInput, hroom, hp]; exact h
    | some p =>
      simp only [playerInput, hroom, hp]
      apply h.mapSet
      apply players_mapSet_inv (h.room hroom)
      exact h.room hroom (s, p) (mem_of_mapGet _ _ _ hp)

theorem inv_playerLand (T : Trig) {rooms : Registry} (h : RegistryInv rooms) (s : SocketId)
    (code : String) (c : Clock) : RegistryInv (playerLand T s code c rooms).rooms := by
  rcases playerLand_cases T s code c rooms with h1 | h1 | h1
  · rw [h1.2.2]; exact h
  · obtain ⟨room, p, tid, hroom, _, hp, ht, hm, _, _, hrooms⟩ := h1
    rw [hrooms]
    apply h.mapSet
    apply players_mapSet_inv (h.room hroom)
    exact collect_questInv (h.room hroom (s, p) (mem_of_mapGet _ _ _ hp)) ht hm
  · obtain ⟨room, p, hroom, _, _, _, _, hrooms⟩ := h1
    rw [hrooms]
    exact h.mapSet _ _ (fun q hq => h.room hroom q hq)

theorem inv_roomLeave {rooms : Registry} (h : RegistryInv rooms) (s : SocketId)
    (code : String) : RegistryInv (roomLeave s code rooms).2 := by
  cases hroom : getRoom rooms code with
  | none => simp only [roomLeave, hroom]; exact h
  | some room =>
    simp only [roomLeave, hroom]
    apply h.mapSet
    intro q hq
    exact h.room hroom q (List.mem_of_mem_filter hq)

theorem inv_disconnect {rooms : Registry} (h : RegistryInv rooms) (s : SocketId) :
    RegistryInv (disconnect s rooms).2 := by
  intro e he q hq
  rw [disconnect_rooms_eq] at he
  obtain ⟨e0, he0, rfl⟩ := List.mem_map.mp (List.mem_of_mem_filter he)
  exact h e0 he0 q (List.mem_of_mem_filter hq)

theorem inv_tickPlayers (T : Trig) (players : List (SocketId × Player)) (c : Clock)
    (h : ∀ q ∈ players, QuestInv q.2) :
    ∀ q ∈ (tickPlayers T players c).1, QuestInv q.2 := by
  induction players generalizing c with
  | nil => intro q hq; simp [tickPlayers] at hq
  | cons e rest ih =>
    intro q hq
    simp only [tickPlayers, List.mem_cons] at hq
    rcases hq with hq | hq
    · subst hq
      exact h e (List.mem_cons_self _ _)
    · exact ih _ (fun q hq => h q (List.mem_cons_of_mem _ hq)) q hq

theorem inv_tick (T : Trig) {rooms : Registry} (h : RegistryInv rooms) (c : Clock) :
    RegistryInv (tick T rooms c).2 := by
  induction rooms generalizing c with
  | nil => intro e he; simp [tick] at he
  | cons e rest ih =>
    have hrest : RegistryInv rest := fun e2 he2 => h e2 (List.mem_cons_of_mem _ he2)
    by_cases hw : e.2.winner.isSome = true
    · simp only [tick, hw, if_true]
      intro e2 he2
      rcases List.mem_cons.mp he2 with h2 | h2
      · subst h2; exact h _ (List.mem_cons_self _ _)
      · exact ih hrest c e2 h2
    · simp only [tick, hw]
      intro e2 he2
      rcases List.mem_cons.mp he2 with h2 | h2
      · subst h2
        exact inv_tickPlayers T _ _ (h e (List.mem_cons_self _ _))
      · exact ih hrest _ e2 h2

theorem inv_step (T : Trig) {rooms : Registry} (h : RegistryInv rooms) (ev : Event)
    (g : RandSrc) (c : Clock) : RegistryInv (step T ev g c rooms) := by
  cases ev with
  | createRoom s fuel =>
    simp only [step]
    cases ho : hostCreateRoom fuel s g c rooms with
    | none => exact h
    | some o => exact inv_hostCreateRoom h fuel s g c o ho
  | hostJoin s code => exact inv_hostJoinRoom h s code
  | restart s code => exact inv_hostRestartRoom h s code g c
  | playerJoin s code name => exact inv_playerJoinRoom h s code name g c
  | input s code input => exact inv_playerInput h s code input c
  | land s code => exact inv_playerLand T h s code c
  | leave s code => exact inv_roomLeave h s code
  | disconnect s => exact inv_disconnect h s
  | tick => exact inv_tick T h c

theorem Reachable.inv {T : Trig} {rooms : Registry} (h : Reachable T rooms) :
    RegistryInv rooms := by
  induction h with
  | init => intro e he; simp at he
  | step _ ev g c ih => exact inv_step T ih ev g c

/-! ## The proximity gate

The handler compares the double that `Math.hypot` returns with `target.r + 45`. The
lemma below holds for whatever `Math.hypot` returns; how that double relates to the exact
Euclidean distance is a matter of floating-point rounding, outside this embedding. -/

theorem playerLand_ok_iff (T : Trig) (s : SocketId) (code : String) (c : Clock)
    (rooms : Registry)
    (room : Room) (p : Player) (hroom : getRoom rooms code = some room)
    (hw : room.winner = none) (hp : mapGet room.players s = some p) (hinv : QuestInv p) :
    ∃ tid target, p.questOrder[p.questIndex]? = some tid ∧ findTarget tid = some target ∧
      ((playerLand T s code c rooms).ack.ok = true ↔
        T.hypot (p.x - target.x) (p.y - target.y) ≤ target.r + 45) := by
  simp only [← tooFar_eq_false_iff]
  obtain ⟨tid, ht, hcase⟩ := hinv.target
  rcases hcase with ⟨hm, h9⟩ | ⟨hpl, hm, _⟩
  · subst hm
    have hfind : findTarget "moon" = some MOON := by simp [findTarget]
    have ha := haveAll_of_questInv hinv h9
    refine ⟨"moon", MOON, ht, hfind, ?_⟩
    cases hfar : tooFar T p MOON with
    | true => simp [playerLand, hroom, hw, hp, ht, hfind, hfar, landError]
    | false => simp [playerLand, hroom, hw, hp, ht, hfind, hfar, ha]
  · obtain ⟨target, hfind⟩ := findTarget_of_planet hpl
    refine ⟨tid, target, ht, hfind, ?_⟩
    cases hfar : tooFar T p target with
    | true => simp [playerLand, hroom, hw, hp, ht, hfind, hfar, landError]
    | false => simp [playerLand, hroom, hw, hp, ht, hfind, hfar, hm]

theorem reachable_land_ok_iff (T : Trig) (rooms : Registry) (hreach : Reachable T rooms)
    (s : SocketId) (code : String) (c : Clock) (room : Room) (p : Player)
    (hroom : getRoom rooms code = some room) (hw : room.winner = none)
    (hp : mapGet room.players s = some p) :
    ∃ tid target, p.questOrder[p.questIndex]? = some tid ∧ findTarget tid = some target ∧
      ((playerLand T s code c rooms).ack.ok = true ↔
        T.hypot (p.x - target.x) (p.y - target.y) ≤ target.r + 45) :=
  playerLand_ok_iff T s code c rooms room p hroom hw hp
    (hreach.inv.room hroom (s, p) (mem_of_mapGet _ _ _ hp))

/-! ## Errors that no reachable registry produces -/

theorem gameOver_head (name : String) :
    ("Game over. Winner: " ++ name).data.head? = some 'G' := by
  rw [String.data_append]
  rfl

theorem gameOver_ne_badTarget (name : String) :
    "Game over. Winner: " ++ name ≠ "Bad target" := by
  intro h
  have h2 := gameOver_head name
  rw [h] at h2
  exact absurd h2 (by decide)

theorem gameOver_ne_incomplete (name : String) :
    "Game over. Winner: " ++ name ≠
      "You must collect all planet items before depositing on the Moon." := by
  intro h
  have h2 := gameOver_head name
  rw [h] at h2
  exact absurd h2 (by decide)

theorem playerLand_error_of_inv (T : Trig) (s : SocketId) (code : String) (c : Clock)
    (rooms : Registry) (hinv : RegistryInv rooms) :
    (playerLand T s code c rooms).ack.error ≠ some "Bad target" ∧
    (playerLand T s code c rooms).ack.error ≠
      some "You must collect all planet items before depositing on the Moon." := by
  cases hroom : getRoom rooms code with
  | none =>
    simp only [playerLand, hroom, landError]
    exact ⟨by decide, by decide⟩
  | some room =>
    cases hw : room.winner with
    | some w =>
      simp only [playerLand, hroom, hw, landError]
      exact ⟨fun h => gameOver_ne_badTarget _ (Option.some.inj h),
        fun h => gameOver_ne_incomplete _ (Option.some.inj h)⟩
    | none =>
      cases hp : mapGet room.players s with
      | none =>
        simp only [playerLand, hroom, hw, hp, landError]
        exact ⟨by decide, by decide⟩
      | some p =>
        have hq : QuestInv p := hinv.room hroom (s, p) (mem_of_mapGet _ _ _ hp)
        obtain ⟨tid, ht, hcase⟩ := hq.target
        rcases hcase with ⟨hm, h9⟩ | ⟨hpl, hm, _⟩
        · subst hm
          have hfind : findTarget "moon" = some MOON := by simp [findTarget]
          have ha := haveAll_of_questInv hq h9
          cases hfar : tooFar T p MOON with
          | true =>
            simp only [playerLand, hroom, hw, hp, ht, hfind, hfar, landError, if_true]
            exact ⟨by decide, by decide⟩
          | false =>
            simp [playerLand, hroom, hw, hp, ht, hfind, hfar, ha]
        · obtain ⟨target, hfind⟩ := findTarget_of_planet hpl
          cases hfar : tooFar T p target with
          | true =>
            simp only [playerLand, hroom, hw, hp, ht, hfind, hfar, landError, if_true]
            exact ⟨by decide, by decide⟩
          | false =>
            simp [playerLand, hroom, hw, hp, ht, hfind, hfar, hm]

theorem startRooms_reachable : Reachable trigEast startRooms :=
  Reachable.step (Reachable.step Reachable.init _ _ _) _ _ _

/-- Claim C11: in every reachable registry every player has `questIndex` between 0 and 9,
`questOrder[questIndex]` is defined and is `"moon"` or the id of an entry of `PLANETS`, and
no `player:land` request is answered with the "Bad target" error. -/
theorem quest_target_defined (T : Trig) (rooms : Registry) (hreach : Reachable T rooms) :
    (∀ e ∈ rooms, ∀ q ∈ e.2.players,
      0 ≤ q.2.questIndex ∧ q.2.questIndex ≤ 9 ∧
      ∃ tid, q.2.questOrder[q.2.questIndex]? = some tid ∧
        (tid = "moon" ∨ ∃ pl ∈ PLANETS, pl.id = tid)) ∧
    (∀ s code c, (playerLand T s code c rooms).ack.error ≠ some "Bad target") := by
  have hinv := hreach.inv
  constructor
  · intro e he q hq
    have hqi : QuestInv q.2 := hinv e he q hq
    obtain ⟨tid, ht, hcase⟩ := hqi.target
    refine ⟨Nat.zero_le _, hqi.2.2.2.1, tid, ht, ?_⟩
    rcases hcase with ⟨hm, _⟩ | ⟨hpl, _, _⟩
    · exact Or.inl hm
    · right
      obtain ⟨pl, hpl2, hid⟩ := List.mem_map.mp hpl
      exact ⟨pl, hpl2, hid⟩
  · intro s code c
    exact (playerLand_error_of_inv T s code c rooms hinv).1

/-- Witness for C11 on the run `startRooms`. -/
theorem quest_target_defined_witness :
    (∀ e ∈ startRooms, ∀ q ∈ e.2.players,
      0 ≤ q.2.questIndex ∧ q.2.questIndex ≤ 9 ∧
      ∃ tid, q.2.questOrder[q.2.questIndex]? = some tid ∧
        (tid = "moon" ∨ ∃ pl ∈ PLANETS, pl.id = tid)) ∧
    (∀ s code c, (playerLand trigEast s code c startRooms).ack.error ≠ some "Bad target") :=
  quest_target_defined trigEast startRooms
    (Reachable.step (Reachable.step Reachable.init _ _ _) _ _ _)

/-! ## Collected items are a prefix of the quest order -/

/-- Claim C13: in every reachable registry each player's `collected` is the list of the
first `questIndex` entries of its `questOrder`, in order, so it has no duplicates and its
length is `questIndex`; whenever the current target is `"moon"` it holds all nine planet
ids; and no `player:land` request is answered with the "You must collect all planet items"
error. -/
theorem collected_is_prefix (T : Trig) (rooms : Registry) (hreach : Reachable T rooms) :
    (∀ e ∈ rooms, ∀ q ∈ e.2.players,
      q.2.collected = q.2.questOrder.take q.2.questIndex ∧
      q.2.collected.Nodup ∧
      q.2.collected.length = q.2.questIndex ∧
      (q.2.questOrder[q.2.questIndex]? = some "moon" →
        ∀ pl ∈ PLANETS, pl.id ∈ q.2.collected)) ∧
    (∀ s code c, (playerLand T s code c rooms).ack.error ≠
      some "You must collect all planet items before depositing on the Moon.") := by
  have hinv := hreach.inv
  constructor
  · intro e he q hq
    have hqi : QuestInv q.2 := hinv e he q hq
    have hcol := hqi.2.2.2.2
    refine ⟨hcol, ?_, ?_, ?_⟩
    · rw [hcol]
      exact hqi.order_nodup.sublist (List.take_sublist _ _)
    · rw [hcol, List.length_take, hqi.1]
      have := hqi.2.2.2.1
      omega
    · intro hmoon
      obtain ⟨tid, ht, hcase⟩ := hqi.target
      rw [hmoon] at ht
      cases ht
      rcases hcase with ⟨_, h9⟩ | ⟨_, hne, _⟩
      · exact (haveAll_iff _).mp (haveAll_of_questInv hqi h9)
      · exact absurd rfl hne
  · intro s code c
    exact (playerLand_error_of_inv T s code c rooms hinv).2

/-- Witness for C13 on the run `startRooms`. -/
theorem collected_is_prefix_witness :
    (∀ e ∈ startRooms, ∀ q ∈ e.2.players,
      q.2.collected = q.2.questOrder.take q.2.questIndex ∧
      q.2.collected.Nodup ∧
      q.2.collected.length = q.2.questIndex ∧
      (q.2.questOrder[q.2.questIndex]? = some "moon" →
        ∀ pl ∈ PLANETS, pl.id ∈ q.2.collected)) ∧
    (∀ s code c, (playerLand trigEast s code c startRooms).ack.error ≠
      some "You must collect all planet items before depositing on the Moon.") :=
  collected_is_prefix trigEast startRooms
    (Reachable.step (Reachable.step Reachable.init _ _ _) _ _ _)

/-! ## Spawn points lie outside every body -/

theorem spawn_clear : ∀ P ∈ PLANETS,
    spawnNearPlanet P.id = (P.x + P.r + 55, P.y - (P.r + 25)) ∧
    ∀ B ∈ MOON :: PLANETS,
      exactFarther ((spawnNearPlanet P.id).1 - B.x) ((spawnNearPlanet P.id).2 - B.y) B.r =
        true := by
  decide!

theorem getD_mem_of_lt {l : List String} {i : Nat} (h : i < l.length) (d : String) :
    l.getD i d ∈ l := by
  rw [List.getD_eq_getElem _ _ h]
  exact List.getElem_mem _

theorem pickSpawnPlanet_mem (players : List (SocketId × Player)) (g : RandSrc) :
    (pickSpawnPlanet players g).1 ∈ planetIds := by
  unfold pickSpawnPlanet
  dsimp only
  split
  · rename_i hne
    have hpos : 0 < (List.filter
        (fun id => !(List.map (fun e => e.2.spawnPlanetId) players).contains id)
        (List.map (fun p => p.id) PLANETS)).length := Nat.pos_of_ne_zero hne
    exact List.mem_of_mem_filter (getD_mem_of_lt (randIndex_lt _ _ hpos) _)
  · exact getD_mem_of_lt (randIndex_lt _ _ (by decide)) _

/-- Claim C12: for each of the nine planets `P`, `spawnNearPlanet(P.id)` is the point
`(P.x + P.r + 55, P.y - (P.r + 25))`, and the distance from that point to the centre of
each of the nine planets and of the Moon is greater than that body's radius; the planet
drawn by `pickSpawnPlanet` is always one of the nine, so no player spawns inside a body. -/
theorem spawn_outside_bodies :
    (∀ P ∈ PLANETS,
      spawnNearPlanet P.id = (P.x + P.r + 55, P.y - (P.r + 25)) ∧
      ∀ B ∈ MOON :: PLANETS,
        (B.r : ℝ) < Real.sqrt ((((spawnNearPlanet P.id).1 - B.x : ℚ) : ℝ) ^ 2 +
          (((spawnNearPlanet P.id).2 - B.y : ℚ) : ℝ) ^ 2)) ∧
    (∀ (players : List (SocketId × Player)) (g : RandSrc),
      ∃ P ∈ PLANETS, (pickSpawnPlanet players g).1 = P.id ∧
        ∀ B ∈ MOON :: PLANETS,
          (B.r : ℝ) <
            Real.sqrt ((((spawnNearPlanet (pickSpawnPlanet players g).1).1 - B.x : ℚ) : ℝ) ^ 2 +
              (((spawnNearPlanet (pickSpawnPlanet players g).1).2 - B.y : ℚ) : ℝ) ^ 2)) := by
  have h1 : ∀ P ∈ PLANETS,
      spawnNearPlanet P.id = (P.x + P.r + 55, P.y - (P.r + 25)) ∧
      ∀ B ∈ MOON :: PLANETS,
        (B.r : ℝ) < Real.sqrt ((((spawnNearPlanet P.id).1 - B.x : ℚ) : ℝ) ^ 2 +
          (((spawnNearPlanet P.id).2 - B.y : ℚ) : ℝ) ^ 2) := by
    intro P hP
    refine ⟨(spawn_clear P hP).1, ?_⟩
    intro B hB
    exact (exactFarther_iff _ _ _).mp ((spawn_clear P hP).2 B hB)
  refine ⟨h1, ?_⟩
  intro players g
  obtain ⟨P, hP, hid⟩ := List.mem_map.mp (pickSpawnPlanet_mem players g)
  refine ⟨P, hP, hid.symm, ?_⟩
  rw [← hid]
  exact (h1 P hP).2

/-- Witness for C12 at Earth: the spawn point is `(19, -9)`. -/
theorem spawn_outside_bodies_witness :
    spawnNearPlanet "earth" = ((-60 : ℚ) + 24 + 55, (40 : ℚ) - (24 + 25)) ∧
    ∀ B ∈ MOON :: PLANETS,
      (B.r : ℝ) < Real.sqrt ((((spawnNearPlanet "earth").1 - B.x : ℚ) : ℝ) ^ 2 +
        (((spawnNearPlanet "earth").2 - B.y : ℚ) : ℝ) ^ 2) :=
  spawn_outside_bodies.1 ⟨"earth", "Earth", -60, 40, 24⟩ (by simp [PLANETS])

/-! ## The speed stays between the fixed points -/

theorem tickPlayer_speed (T : Trig) (p : Player) (t : Nat) :
    (tickPlayer T p t).speed = max (min (dampedSpeed p) 6) (-6 * (6 / 10)) := rfl

theorem dampedSpeed_inv (p : Player) (h : SpeedInv p) :
    -(23 / 10 : ℚ) ≤ dampedSpeed p ∧ dampedSpeed p ≤ 23 / 8 := by
  obtain ⟨h1, h2⟩ := h
  unfold dampedSpeed
  dsimp only
  cases p.input.up <;> cases p.input.down <;> simp <;> constructor <;> linarith

theorem tickPlayer_speed_eq (T : Trig) (p : Player) (t : Nat) (h : SpeedInv p) :
    (tickPlayer T p t).speed = dampedSpeed p := by
  obtain ⟨h1, h2⟩ := dampedSpeed_inv p h
  rw [tickPlayer_speed, min_eq_left (by linarith), max_eq_left (by linarith)]

theorem tickPlayer_speedInv (T : Trig) (p : Player) (t : Nat) (h : SpeedInv p) :
    SpeedInv (tickPlayer T p t) := by
  unfold SpeedInv
  rw [tickPlayer_speed_eq T p t h]
  exact dampedSpeed_inv p h

theorem runTicks_speedInv (T : Trig) (inputs : List (Input × Nat)) (p : Player)
    (h : SpeedInv p) : SpeedInv (runTicks T inputs p) := by
  induction inputs generalizing p with
  | nil => exact h
  | cons i rest ih => exact ih _ (tickPlayer_speedInv T _ _ h)

theorem speedInv_of_rest {p : Player} (h : p.speed = 0) : SpeedInv p := by
  unfold SpeedInv
  rw [h]
  constructor <;> norm_num

theorem speedInv_mapSet {rooms : Registry} (h : RegistrySpeedInv rooms)
    (code : String) (room : Room) (hroom : ∀ q ∈ room.players, SpeedInv q.2) :
    RegistrySpeedInv (mapSet rooms code room) := by
  intro e he q hq
  rcases mem_mapSet _ _ _ _ he with h1 | h1
  · exact h e h1 q hq
  · subst h1
    exact hroom q hq

theorem speedInv_room {rooms : Registry} (h : RegistrySpeedInv rooms)
    {code : String} {room : Room} (hroom : getRoom rooms code = some room) :
    ∀ q ∈ room.players, SpeedInv q.2 :=
  h (code, room) (mem_of_mapGet _ _ _ hroom)

theorem players_mapSet_speed {players : List (SocketId × Player)}
    (h : ∀ q ∈ players, SpeedInv q.2) (s : SocketId) (p : Player) (hp : SpeedInv p) :
    ∀ q ∈ mapSet players s p, SpeedInv q.2 := by
  intro q hq
  rcases mem_mapSet _ _ _ _ hq with h1 | h1
  · exact h q h1
  · subst h1; exact hp

theorem speed_tickPlayers (T : Trig) (players : List (SocketId × Player)) (c : Clock)
    (h : ∀ q ∈ players, SpeedInv q.2) :
    ∀ q ∈ (tickPlayers T players c).1, SpeedInv q.2 := by
  induction players generalizing c with
  | nil => intro q hq; simp [tickPlayers] at hq
  | cons e rest ih =>
    intro q hq
    simp only [tickPlayers, List.mem_cons] at hq
    rcases hq with hq | hq
    · subst hq
      exact tickPlayer_speedInv T _ _ (h e (List.mem_cons_self _ _))
    · exact ih _ (fun q hq => h q (List.mem_cons_of_mem _ hq)) q hq

theorem speed_tick (T : Trig) {rooms : Registry} (h : RegistrySpeedInv rooms) (c : Clock) :
    RegistrySpeedInv (tick T rooms c).2 := by
  induction rooms generalizing c with
  | nil => intro e he; simp [tick] at he
  | cons e rest ih =>
    have hrest : RegistrySpeedInv rest := fun e2 he2 => h e2 (List.mem_cons_of_mem _ he2)
    by_cases hw : e.2.winner.isSome = true
    · simp only [tick, hw, if_true]
      intro e2 he2
      rcases List.mem_cons.mp he2 with h2 | h2
      · subst h2; exact h _ (List.mem_cons_self _ _)
      · exact ih hrest c e2 h2
    · simp only [tick, hw]
      intro e2 he2
      rcases List.mem_cons.mp he2 with h2 | h2
      · subst h2
        exact speed_tickPlayers T _ _ (h e (List.mem_cons_self _ _))
      · exact ih hrest _ e2 h2

theorem speed_step (T : Trig) {rooms : Registry} (h : RegistrySpeedInv rooms) (ev : Event)
    (g : RandSrc) (c : Clock) : RegistrySpeedInv (step T ev g c rooms) := by
  cases ev with
  | createRoom s fuel =>
    simp only [step]
    cases ho : hostCreateRoom fuel s g c rooms with
    | none => exact h
    | some o =>
      unfold hostCreateRoom at ho
      cases hcode : freshRoomCode fuel rooms g with
      | none => simp [hcode] at ho
      | some code =>
        simp only [hcode, Option.map_some', Option.some.injEq] at ho
        subst ho
        exact speedInv_mapSet h _ _ (by simp)
  | hostJoin s code =>
    cases hroom : getRoom rooms code with
    | none => simp only [step, hostJoinRoom, hroom]; exact h
    | some room =>
      simp only [step, hostJoinRoom, hroom]
      exact speedInv_mapSet h _ _ (fun q hq => speedInv_room h hroom q hq)
  | restart s code =>
    cases hroom : getRoom rooms code with
    | none => simp only [step, hostRestartRoom, hroom]; exact h
    | some room =>
      by_cases hh : room.hostId ≠ some s
      · simp only [step, hostRestartRoom, hroom, if_pos hh]; exact h
      · simp only [step, hostRestartRoom, hroom, if_neg hh]
        apply speedInv_mapSet h
        intro q hq
        rcases restartLoop_mem _ _ _ _ q hq with h1 | h1
        · simp at h1
        · exact speedInv_of_rest h1.1.2.2.2.2.2.2.1
  | playerJoin s code name =>
    cases hroom : getRoom rooms code with
    | none => simp only [step, playerJoinRoom, hroom]; exact h
    | some room =>
      simp only [step, playerJoinRoom, hroom]
      apply speedInv_mapSet h
      exact players_mapSet_speed (speedInv_room h hroom) _ _ (speedInv_of_rest rfl)
  | input s code input =>
    cases hroom : getRoom rooms code with
    | none => simp only [step, playerInput, hroom]; exact h
    | some room =>
      cases hp : mapGet room.players s with
      | none => simp only [step, playerInput, hroom, hp]; exact h
      | some p =>
        simp only [step, playerInput, hroom, hp]
        apply speedInv_mapSet h
        apply players_mapSet_speed (speedInv_room h hroom)
        exact speedInv_room h hroom (s, p) (mem_of_mapGet _ _ _ hp)
  | land s code =>
    simp only [step]
    rcases playerLand_cases T s code c rooms with h1 | h1 | h1
    · rw [h1.2.2]; exact h
    · obtain ⟨room, p, tid, hroom, _, hp, _, _, _, _, hrooms⟩ := h1
      rw [hrooms]
      apply speedInv_mapSet h
      apply players_mapSet_speed (speedInv_room h hroom)
      exact speedInv_room h hroom (s, p) (mem_of_mapGet _ _ _ hp)
    · obtain ⟨room, p, hroom, _, _, _, _, hrooms⟩ := h1
      rw [hrooms]
      exact speedInv_mapSet h _ _ (fun q hq => speedInv_room h hroom q hq)
  | leave s code =>
    cases hroom : getRoom rooms code with
    | none => simp only [step, roomLeave, hroom]; exact h
    | some room =>
      simp only [step, roomLeave, hroom]
      apply speedInv_mapSet h
      intro q hq
      exact speedInv_room h hroom q (List.mem_of_mem_filter hq)
  | disconnect s =>
    simp only [step]
    intro e he q hq
    rw [disconnect_rooms_eq] at he
    obtain ⟨e0, he0, rfl⟩ := List.mem_map.mp (List.mem_of_mem_filter he)
    exact h e0 he0 q (List.mem_of_mem_filter hq)
  | tick => exact speed_tick T h c

theorem Reachable.speedInv {T : Trig} {rooms : Registry} (h : Reachable T rooms) :
    RegistrySpeedInv rooms := by
  induction h with
  | init => intro e he; simp at he
  | step _ ev g c ih => exact speed_step T ih ev g c

theorem speed_facts (T : Trig) (p : Player) (h : SpeedInv p) :
    -(23 / 10 : ℚ) ≤ p.speed ∧ p.speed ≤ 23 / 8 ∧
    p.speed < 6 ∧ -(6 : ℚ) * (6 / 10) < p.speed ∧
    ∀ (i : Input) (t : Nat),
      (tickPlayer T { p with input := i } t).speed = dampedSpeed { p with input := i } := by
  obtain ⟨h1, h2⟩ := h
  refine ⟨h1, h2, by linarith, by linarith, ?_⟩
  intro i t
  exact tickPlayer_speed_eq T _ t ⟨h1, h2⟩

/-- Claim C14: with the tick arithmetic over exact rationals, a player starting from rest
has, after any number of ticks under any inputs, a speed between -2.3 and 2.875, hence
strictly between the reverse cap -3.6 and `maxSpeed` 6, and at the next tick the clamp of
line 325 returns the damped speed unchanged; the same holds for every player of every
reachable registry, where join and restart set the speed to 0; the two bounds are the
fixed points of the tick under brake alone and under thrust alone. -/
theorem speed_stays_bounded (T : Trig) :
    (∀ (p : Player) (inputs : List (Input × Nat)), p.speed = 0 →
      -(23 / 10 : ℚ) ≤ (runTicks T inputs p).speed ∧
      (runTicks T inputs p).speed ≤ 23 / 8 ∧
      (runTicks T inputs p).speed < 6 ∧
      -(6 : ℚ) * (6 / 10) < (runTicks T inputs p).speed ∧
      ∀ (i : Input) (t : Nat),
        (tickPlayer T { runTicks T inputs p with input := i } t).speed =
          dampedSpeed { runTicks T inputs p with input := i }) ∧
    (∀ rooms, Reachable T rooms → ∀ e ∈ rooms, ∀ q ∈ e.2.players,
      -(23 / 10 : ℚ) ≤ q.2.speed ∧ q.2.speed ≤ 23 / 8 ∧
      ∀ t : Nat, (tickPlayer T q.2 t).speed = dampedSpeed q.2) ∧
    (∀ q : Player, q.speed = 23 / 8 → q.input.up = true → q.input.down = false →
      (tickPlayer T q 0).speed = 23 / 8) ∧
    (∀ q : Player, q.speed = -(23 / 10) → q.input.up = false → q.input.down = true →
      (tickPlayer T q 0).speed = -(23 / 10)) := by
  refine ⟨?_, ?_, ?_, ?_⟩
  · intro p inputs h0
    exact speed_facts T _ (runTicks_speedInv T inputs p (speedInv_of_rest h0))
  · intro rooms hreach e he q hq
    have h := hreach.speedInv e he q hq
    exact ⟨h.1, h.2, fun t => tickPlayer_speed_eq T _ t h⟩
  · intro q hs hu hd
    have hq : SpeedInv q := by
      unfold SpeedInv; rw [hs]; constructor <;> norm_num
    rw [tickPlayer_speed_eq T q 0 hq]
    simp only [dampedSpeed, hu, hd, hs]
    norm_num
  · intro q hs hu hd
    have hq : SpeedInv q := by
      unfold SpeedInv; rw [hs]; constructor <;> norm_num
    rw [tickPlayer_speed_eq T q 0 hq]
    simp only [dampedSpeed, hu, hd, hs]
    norm_num

/-- Witness for C14: `pilotAtStart`, at rest, after three ticks with the up key held. -/
theorem speed_stays_bounded_witness :
    pilotAtStart.speed = 0 ∧
    (runTicks trigEast
      [(⟨true, false, false, false⟩, 1), (⟨true, false, false, false⟩, 2),
        (⟨true, false, false, false⟩, 3)] pilotAtStart).speed = 39767 / 62500 ∧
    -(23 / 10 : ℚ) ≤ (runTicks trigEast
      [(⟨true, false, false, false⟩, 1), (⟨true, false, false, false⟩, 2),
        (⟨true, false, false, false⟩, 3)] pilotAtStart).speed ∧
    (runTicks trigEast
      [(⟨true, false, false, false⟩, 1), (⟨true, false, false, false⟩, 2),
        (⟨true, false, false, false⟩, 3)] pilotAtStart).speed ≤ 23 / 8 :=
  ⟨rfl, by decide!,
    ((speed_stays_bounded trigEast).1 pilotAtStart _ rfl).1,
    ((speed_stays_bounded trigEast).1 pilotAtStart _ rfl).2.1⟩

/-! ## Room codes stay unique along a run -/

theorem nodup_mapSet {κ β : Type} [DecidableEq κ] (m : List (κ × β)) (k : κ) (v : β)
    (h : (mapKeys m).Nodup) : (mapKeys (mapSet m k v)).Nodup := by
  rw [mapKeys_mapSet]
  split
  · exact h
  · rename_i hk
    rw [List.nodup_append]
    refine ⟨h, List.nodup_singleton _, ?_⟩
    intro a ha hb
    have : a = k := by simpa using hb
    exact hk (this ▸ ha)

theorem mapKeys_tick (T : Trig) (rooms : Registry) (c : Clock) :
    mapKeys (tick T rooms c).2 = mapKeys rooms := by
  induction rooms generalizing c with
  | nil => rfl
  | cons e rest ih =>
    by_cases hw : e.2.winner.isSome = true
    · simp only [tick, hw, if_true, mapKeys, List.map_cons]
      have := ih c
      simp only [mapKeys] at this
      rw [this]
    · simp only [tick, hw, mapKeys, List.map_cons]
      have := ih (tickPlayers T e.2.players c).2
      simp only [mapKeys] at this
      simp [this]

theorem nodup_disconnect (s : SocketId) (rooms : Registry) (h : (mapKeys rooms).Nodup) :
    (mapKeys (disconnect s rooms).2).Nodup := by
  rw [disconnect_rooms_eq]
  have hsub : List.Sublist
      (mapKeys ((rooms.map (fun e => (e.1, clearSocket s e.2))).filter
        (fun e => !(isAbandoned e.2))))
      (mapKeys (rooms.map (fun e => (e.1, clearSocket s e.2)))) :=
    List.Sublist.map _ (List.filter_sublist _)
  have hk : mapKeys (rooms.map (fun e => (e.1, clearSocket s e.2))) = mapKeys rooms := by
    simp [mapKeys, List.map_map, Function.comp_def]
  rw [hk] at hsub
  exact h.sublist hsub

theorem nodup_step (T : Trig) (ev : Event) (g : RandSrc) (c : Clock) (rooms : Registry)
    (h : (mapKeys rooms).Nodup) : (mapKeys (step T ev g c rooms)).Nodup := by
  cases ev with
  | createRoom s fuel =>
    simp only [step]
    cases ho : hostCreateRoom fuel s g c rooms with
    | none => exact h
    | some o =>
      unfold hostCreateRoom at ho
      cases hcode : freshRoomCode fuel rooms g with
      | none => simp [hcode] at ho
      | some code =>
        simp only [hcode, Option.map_some', Option.some.injEq] at ho
        subst ho
        exact nodup_mapSet _ _ _ h
  | hostJoin s code =>
    cases hroom : getRoom rooms code with
    | none => simp only [step, hostJoinRoom, hroom]; exact h
    | some room => simp only [step, hostJoinRoom, hroom]; exact nodup_mapSet _ _ _ h
  | restart s code =>
    cases hroom : getRoom rooms code with
    | none => simp only [step, hostRestartRoom, hroom]; exact h
    | some room =>
      by_cases hh : room.hostId ≠ some s
      · simp only [step, hostRestartRoom, hroom, if_pos hh]; exact h
      · simp only [step, hostRestartRoom, hroom, if_neg hh]; exact nodup_mapSet _ _ _ h
  | playerJoin s code name =>
    cases hroom : getRoom rooms code with
    | none => simp only [step, playerJoinRoom, hroom]; exact h
    | some room => simp only [step, playerJoinRoom, hroom]; exact nodup_mapSet _ _ _ h
  | input s code input =>
    cases hroom : getRoom rooms code with
    | none => simp only [step, playerInput, hroom]; exact h
    | some room =>
      cases hp : mapGet room.players s with
      | none => simp only [step, playerInput, hroom, hp]; exact h
      | some p => simp only [step, playerInput, hroom, hp]; exact nodup_mapSet _ _ _ h
  | land s code =>
    simp only [step]
    rcases playerLand_cases T s code c rooms with h1 | h1 | h1
    · rw [h1.2.2]; exact h
    · obtain ⟨room, p, tid, _, _, _, _, _, _, _, hrooms⟩ := h1
      rw [hrooms]; exact nodup_mapSet _ _ _ h
    · obtain ⟨room, p, _, _, _, _, _, hrooms⟩ := h1
      rw [hrooms]; exact nodup_mapSet _ _ _ h
  | leave s code =>
    cases hroom : getRoom rooms code with
    | none => simp only [step, roomLeave, hroom]; exact h
    | some room => simp only [step, roomLeave, hroom]; exact nodup_mapSet _ _ _ h
  | disconnect s => exact nodup_disconnect s rooms h
  | tick =>
    simp only [step]
    rw [mapKeys_tick]; exact h

theorem nodup_runTrace (T : Trig) (trace : List (Event × RandSrc × Clock)) (rooms : Registry)
    (h : (mapKeys rooms).Nodup) : (mapKeys (runTrace T trace rooms)).Nodup := by
  induction trace generalizing rooms with
  | nil => exact h
  | cons st rest ih => exact ih _ (nodup_step T _ _ _ _ h)

/-! ## Only a restart clears the winner -/

theorem freshRoomCode_fresh (fuel : Nat) (rooms : Registry) (g : RandSrc) (code : String)
    (h : freshRoomCode fuel rooms g = some code) : mapHas rooms code = false := by
  induction fuel generalizing g with
  | zero => simp [freshRoomCode] at h
  | succ n ih =>
    simp only [freshRoomCode] at h
    by_cases hh : mapHas rooms (createRoomCode g).1 = true
    · rw [if_pos hh] at h
      exact ih _ h
    · rw [if_neg hh] at h
      cases h
      simpa using hh

theorem winner_after_mapSet (rooms : Registry) (code code2 : String) (r2 room room2 : Room)
    (w : Winner) (hroom : getRoom rooms code = some room) (hw : room.winner = some w)
    (hr2 : code2 = code → r2.winner = some w)
    (h2 : getRoom (mapSet rooms code2 r2) code = some room2) : room2.winner = some w := by
  by_cases hc : code = code2
  · subst hc
    rw [getRoom_mapSet_self] at h2
    cases h2
    exact hr2 rfl
  · rw [getRoom_mapSet_ne _ _ _ _ hc, hroom] at h2
    cases h2
    exact hw

theorem tick_getRoom (T : Trig) (rooms : Registry) (c : Clock) (code : String) (room2 : Room)
    (h2 : getRoom (tick T rooms c).2 code = some room2) :
    ∃ room, getRoom rooms code = some room ∧ room2.winner = room.winner := by
  induction rooms generalizing c with
  | nil => simp [tick, getRoom, mapGet] at h2
  | cons e rest ih =>
    by_cases hw : e.2.winner.isSome = true
    · simp only [tick, hw, if_true] at h2
      by_cases hk : e.1 = code
      · simp only [getRoom, mapGet, if_pos hk, Option.some.injEq] at h2 ⊢
        exact ⟨e.2, rfl, by rw [← h2]⟩
      · simp only [getRoom, mapGet, if_neg hk] at h2 ⊢
        exact ih c h2
    · simp only [tick, hw] at h2
      by_cases hk : e.1 = code
      · simp only [getRoom, mapGet, if_pos hk, Option.some.injEq] at h2 ⊢
        exact ⟨e.2, rfl, by rw [← h2]⟩
      · simp only [getRoom, mapGet, if_neg hk] at h2 ⊢
        exact ih _ h2

theorem disconnect_getRoom (s : SocketId) (rooms : Registry) (hnd : (mapKeys rooms).Nodup)
    (code : String) (room2 : Room) (h2 : getRoom (disconnect s rooms).2 code = some room2) :
    ∃ room, getRoom rooms code = some room ∧ room2 = clearSocket s room := by
  have hmem := mem_of_mapGet _ _ _ h2
  rw [disconnect_rooms_eq] at hmem
  obtain ⟨e0, he0, heq⟩ := List.mem_map.mp (List.mem_of_mem_filter hmem)
  have h1 : e0.1 = code := congrArg Prod.fst heq
  have h3 : clearSocket s e0.2 = room2 := congrArg Prod.snd heq
  refine ⟨e0.2, ?_, h3.symm⟩
  apply mapGet_of_mem_nodup _ _ _ hnd
  rw [← h1]
  exact he0

theorem step_keeps_winner (T : Trig) (code : String) (ev : Event) (g : RandSrc) (c : Clock)
    (rooms : Registry) (hnd : (mapKeys rooms).Nodup) (hev : isRestartOf code ev = false)
    (room room2 : Room) (w : Winner) (hroom : getRoom rooms code = some room)
    (hw : room.winner = some w) (h2 : getRoom (step T ev g c rooms) code = some room2) :
    room2.winner = some w := by
  have hsame : getRoom rooms code = some room2 → room2.winner = some w := by
    intro h; rw [hroom] at h; cases h; exact hw
  cases ev with
  | createRoom s fuel =>
    simp only [step] at h2
    cases ho : hostCreateRoom fuel s g c rooms with
    | none => rw [ho] at h2; exact hsame h2
    | some o =>
      rw [ho] at h2
      unfold hostCreateRoom at ho
      cases hcode : freshRoomCode fuel rooms g with
      | none => simp [hcode] at ho
      | some code2 =>
        simp only [hcode, Option.map_some', Option.some.injEq] at ho
        subst ho
        refine winner_after_mapSet rooms code code2 _ room room2 w hroom hw ?_ h2
        intro hc
        have hfresh := freshRoomCode_fresh fuel rooms g code2 hcode
        rw [hc] at hfresh
        simp [mapHas, getRoom] at hfresh hroom
        rw [hroom] at hfresh
        cases hfresh
  | hostJoin s code2 =>
    cases hr : getRoom rooms code2 with
    | none => simp only [step, hostJoinRoom, hr] at h2; exact hsame h2
    | some room0 =>
      simp only [step, hostJoinRoom, hr] at h2
      refine winner_after_mapSet rooms code code2 _ room room2 w hroom hw ?_ h2
      intro hc
      rw [hc, hroom] at hr
      cases hr
      exact hw
  | restart s code2 =>
    have hne : code2 ≠ code := by simpa [isRestartOf] using hev
    cases hr : getRoom rooms code2 with
    | none => simp only [step, hostRestartRoom, hr] at h2; exact hsame h2
    | some room0 =>
      by_cases hh : room0.hostId ≠ some s
      · simp only [step, hostRestartRoom, hr, if_pos hh] at h2; exact hsame h2
      · simp only [step, hostRestartRoom, hr, if_neg hh] at h2
        exact winner_after_mapSet rooms code code2 _ room room2 w hroom hw
          (fun hc => absurd hc hne) h2
  | playerJoin s code2 name =>
    cases hr : getRoom rooms code2 with
    | none => simp only [step, playerJoinRoom, hr] at h2; exact hsame h2
    | some room0 =>
      simp only [step, playerJoinRoom, hr] at h2
      refine winner_after_mapSet rooms code code2 _ room room2 w hroom hw ?_ h2
      intro hc
      rw [hc, hroom] at hr
      cases hr
      exact hw
  | input s code2 input =>
    cases hr : getRoom rooms code2 with
    | none => simp only [step, playerInput, hr] at h2; exact hsame h2
    | some room0 =>
      cases hp : mapGet room0.players s with
      | none => simp only [step, playerInput, hr, hp] at h2; exact hsame h2
      | some p =>
        simp only [step, playerInput, hr, hp] at h2
        refine winner_after_mapSet rooms code code2 _ room room2 w hroom hw ?_ h2
        intro hc
        rw [hc, hroom] at hr
        cases hr
        exact hw
  | land s code2 =>
    simp only [step] at h2
    rcases playerLand_cases T s code2 c rooms with h1 | h1 | h1
    · rw [h1.2.2] at h2; exact hsame h2
    · obtain ⟨room0, p, tid, hr, hw0, _, _, _, _, _, hrooms⟩ := h1
      rw [hrooms] at h2
      refine winner_after_mapSet rooms code code2 _ room room2 w hroom hw ?_ h2
      intro hc
      rw [hc, hroom] at hr
      cases hr
      exact hw
    · obtain ⟨room0, p, hr, hw0, _, _, _, hrooms⟩ := h1
      rw [hrooms] at h2
      refine winner_after_mapSet rooms code code2 _ room room2 w hroom hw ?_ h2
      intro hc
      rw [hc, hroom] at hr
      cases hr
      rw [hw] at hw0
      cases hw0
  | leave s code2 =>
    cases hr : getRoom rooms code2 with
    | none => simp only [step, roomLeave, hr] at h2; exact hsame h2
    | some room0 =>
      simp only [step, roomLeave, hr] at h2
      refine winner_after_mapSet rooms code code2 _ room room2 w hroom hw ?_ h2
      intro hc
      rw [hc, hroom] at hr
      cases hr
      exact hw
  | disconnect s =>
    simp only [step] at h2
    obtain ⟨room0, hr, heq⟩ := disconnect_getRoom s rooms hnd code room2 h2
    rw [hroom] at hr
    cases hr
    rw [heq]
    exact hw
  | tick =>
    simp only [step] at h2
    obtain ⟨room0, hr, heq⟩ := tick_getRoom T rooms c code room2 h2
    rw [hroom] at hr
    cases hr
    rw [heq]
    exact hw

/-! ## At most one winner along a run -/

theorem runTrace_append (T : Trig) (pre post : List (Event × RandSrc × Clock))
    (rooms : Registry) :
    runTrace T (pre ++ post) rooms = runTrace T post (runTrace T pre rooms) := by
  induction pre generalizing rooms with
  | nil => rfl
  | cons st rest ih => exact ih _

theorem sameRoomRun_present (T : Trig) (code : String)
    (trace : List (Event × RandSrc × Clock)) (rooms : Registry)
    (h : sameRoomRun T code trace rooms = true) : (getRoom rooms code).isSome = true := by
  cases trace with
  | nil => exact h
  | cons st rest =>
    simp only [sameRoomRun, Bool.and_eq_true] at h
    exact h.1.1

theorem sameRoomRun_cons (T : Trig) (code : String) (st : Event × RandSrc × Clock)
    (rest : List (Event × RandSrc × Clock)) (rooms : Registry)
    (h : sameRoomRun T code (st :: rest) rooms = true) :
    isRestartOf code st.1 = false ∧
      sameRoomRun T code rest (step T st.1 st.2.1 st.2.2 rooms) = true := by
  simp only [sameRoomRun, Bool.and_eq_true, Bool.not_eq_true'] at h
  exact ⟨h.1.2, h.2⟩

theorem sameRoomRun_append (T : Trig) (code : String)
    (pre post : List (Event × RandSrc × Clock)) (rooms : Registry)
    (h : sameRoomRun T code (pre ++ post) rooms = true) :
    sameRoomRun T code pre rooms = true ∧
      sameRoomRun T code post (runTrace T pre rooms) = true := by
  induction pre generalizing rooms with
  | nil => exact ⟨sameRoomRun_present T code _ _ h, h⟩
  | cons st rest ih =>
    have hp := sameRoomRun_present T code _ _ h
    obtain ⟨hr, hrest⟩ := sameRoomRun_cons T code st (rest ++ post) rooms h
    obtain ⟨h1, h2⟩ := ih _ hrest
    refine ⟨?_, h2⟩
    simp only [sameRoomRun, Bool.and_eq_true, Bool.not_eq_true']
    exact ⟨⟨hp, hr⟩, h1⟩

theorem landAcks_land (T : Trig) (code : String) (s : SocketId) (g : RandSrc) (c : Clock)
    (rest : List (Event × RandSrc × Clock)) (rooms : Registry) :
    landAcks T code ((Event.land s code, g, c) :: rest) rooms =
      (playerLand T s code c rooms).ack ::
        landAcks T code rest (playerLand T s code c rooms).rooms := by
  simp [landAcks, step]

theorem landAcks_other (T : Trig) (code : String) (st : Event × RandSrc × Clock)
    (rest : List (Event × RandSrc × Clock)) (rooms : Registry)
    (h : ∀ s, st.1 ≠ Event.land s code) :
    landAcks T code (st :: rest) rooms =
      landAcks T code rest (step T st.1 st.2.1 st.2.2 rooms) := by
  obtain ⟨ev, g, c⟩ := st
  cases ev with
  | land s code2 =>
    have hne : code2 ≠ code := fun hc => h s (by rw [hc])
    simp [landAcks, hne]
  | _ => rfl

theorem land_or_other (code : String) (ev : Event) :
    (∃ s, ev = Event.land s code) ∨ (∀ s, ev ≠ Event.land s code) := by
  cases ev with
  | land s code2 =>
    by_cases hc : code2 = code
    · left; exact ⟨s, by rw [hc]⟩
    · right; intro s2 h; cases h; exact hc rfl
  | _ => right; intro s h; cases h

theorem run_keeps_winner (T : Trig) (code : String)
    (trace : List (Event × RandSrc × Clock)) (rooms : Registry)
    (hnd : (mapKeys rooms).Nodup) (hrun : sameRoomRun T code trace rooms = true)
    (room : Room) (w : Winner) (hroom : getRoom rooms code = some room)
    (hw : room.winner = some w) :
    (∃ room2, getRoom (runTrace T trace rooms) code = some room2 ∧ room2.winner = some w) ∧
    ∀ a ∈ landAcks T code trace rooms, a = landError ("Game over. Winner: " ++ w.name) := by
  induction trace generalizing rooms room with
  | nil => exact ⟨⟨room, hroom, hw⟩, by simp [landAcks]⟩
  | cons st rest ih =>
    obtain ⟨hev, hrest⟩ := sameRoomRun_cons T code st rest rooms hrun
    obtain ⟨room1, hroom1⟩ :=
      Option.isSome_iff_exists.mp (sameRoomRun_present T code _ _ hrest)
    have hw1 : room1.winner = some w :=
      step_keeps_winner T code st.1 st.2.1 st.2.2 rooms hnd hev room room1 w hroom hw hroom1
    obtain ⟨hend, hacks⟩ := ih _ (nodup_step T _ _ _ _ hnd) hrest room1 hroom1 hw1
    refine ⟨hend, ?_⟩
    rcases land_or_other code st.1 with ⟨s, hs⟩ | hother
    · obtain ⟨ev, g, c⟩ := st
      simp only at hs
      subst hs
      rw [landAcks_land]
      intro a ha
      rcases List.mem_cons.mp ha with h1 | h1
      · rw [h1, playerLand_game_over T s code c rooms room w hroom hw]
      · exact hacks a h1
    · rw [landAcks_other T code st rest rooms hother]
      exact hacks

theorem run_done_count (T : Trig) (code : String)
    (trace : List (Event × RandSrc × Clock)) (rooms : Registry)
    (hnd : (mapKeys rooms).Nodup) (hrun : sameRoomRun T code trace rooms = true) :
    ((landAcks T code trace rooms).filter (fun a => decide (a.done = some true))).length
      ≤ 1 := by
  have hzero : ∀ (l : List LandAck) (msg : String), (∀ a ∈ l, a = landError msg) →
      (l.filter (fun a => decide (a.done = some true))).length = 0 := by
    intro l msg hl
    rw [List.length_eq_zero, List.filter_eq_nil_iff]
    intro a ha
    rw [hl a ha]
    simp [landError]
  induction trace generalizing rooms with
  | nil => simp [landAcks]
  | cons st rest ih =>
    obtain ⟨room, hroom⟩ :=
      Option.isSome_iff_exists.mp (sameRoomRun_present T code _ _ hrun)
    cases hw : room.winner with
    | some w =>
      rw [hzero _ _ (run_keeps_winner T code _ rooms hnd hrun room w hroom hw).2]
      exact Nat.zero_le _
    | none =>
      obtain ⟨_, hrest⟩ := sameRoomRun_cons T code st rest rooms hrun
      have hnd1 := nodup_step T st.1 st.2.1 st.2.2 rooms hnd
      rcases land_or_other code st.1 with ⟨s, hs⟩ | hother
      · obtain ⟨ev, g, c⟩ := st
        simp only at hs
        subst hs
        rw [landAcks_land]
        have hih := ih (playerLand T s code c rooms).rooms hnd1 hrest
        rcases playerLand_cases T s code c rooms with h | h | h
        · have hd : ¬ (playerLand T s code c rooms).ack.done = some true := by
            rw [h.2.1]; simp
          rw [List.filter_cons_of_neg (by simpa using hd)]
          exact hih
        · obtain ⟨_, _, _, _, _, _, _, _, _, hdone, _⟩ := h
          have hd : ¬ (playerLand T s code c rooms).ack.done = some true := by
            rw [hdone]; simp
          rw [List.filter_cons_of_neg (by simpa using hd)]
          exact hih
        · obtain ⟨room0, p, _, _, _, _, hdone, hrooms⟩ := h
          rw [List.filter_cons_of_pos (by simpa using hdone)]
          have hrest2 : sameRoomRun T code rest (playerLand T s code c rooms).rooms = true :=
            hrest
          have hkeep := run_keeps_winner T code rest (playerLand T s code c rooms).rooms
            hnd1 hrest2 _ { id := s, name := p.name, time := c 0 }
            (by rw [hrooms]; exact getRoom_mapSet_self _ _ _) rfl
          rw [List.length_cons, hzero _ _ hkeep.2]
      · rw [landAcks_other T code st rest rooms hother]
        exact ih _ hnd1 hrest

/-- Claim C4: take a room of a registry with unique room codes and any run of events
(landings, ticks, inputs, joins, leaves, disconnects, room creations, host joins,
restarts of other rooms) during which the room stays in the registry and is not
restarted. Among the `player:land` requests for the room at most one is acknowledged
with `done: true`; once `room.winner` is set, it keeps that value at every later point of
the run, and every later `player:land` request for the room is answered with the "Game
over" error naming that winner; such a request emits nothing and leaves the registry, so
`room.winner` and every player's `questIndex` and `collected`, as it was. -/
theorem land_at_most_one_winner (T : Trig) (code : String)
    (trace : List (Event × RandSrc × Clock)) (rooms : Registry)
    (hnd : (mapKeys rooms).Nodup) (hrun : sameRoomRun T code trace rooms = true) :
    ((landAcks T code trace rooms).filter (fun a => decide (a.done = some true))).length
      ≤ 1 ∧
    (∀ pre mid post room w, trace = pre ++ mid ++ post →
      getRoom (runTrace T pre rooms) code = some room → room.winner = some w →
      (∃ room2, getRoom (runTrace T (pre ++ mid) rooms) code = some room2 ∧
        room2.winner = some w) ∧
      (∀ a ∈ landAcks T code (mid ++ post) (runTrace T pre rooms),
        a = landError ("Game over. Winner: " ++ w.name))) ∧
    (∀ (rooms2 : Registry) room w s c, getRoom rooms2 code = some room →
      room.winner = some w →
      playerLand T s code c rooms2 =
        ⟨landError ("Game over. Winner: " ++ w.name), [], rooms2⟩) := by
  refine ⟨run_done_count T code trace rooms hnd hrun, ?_, ?_⟩
  · intro pre mid post room w hsplit hroom hw
    subst hsplit
    rw [List.append_assoc] at hrun
    obtain ⟨_, hrest⟩ := sameRoomRun_append T code pre (mid ++ post) rooms hrun
    obtain ⟨hmid, _⟩ := sameRoomRun_append T code mid post _ hrest
    have hnd1 := nodup_runTrace T pre rooms hnd
    constructor
    · rw [runTrace_append]
      exact (run_keeps_winner T code mid _ hnd1 hmid room w hroom hw).1
    · exact (run_keeps_winner T code (mid ++ post) _ hnd1 hrest room w hroom hw).2
  · intro rooms2 room w s c hroom hw
    exact playerLand_game_over T s code c rooms2 room w hroom hw

/-- Witness for C4: on the run `moonTrace` from `moonRooms` the room lives on without
restart, the landing of `sockA` wins and the later landing of `sockB` is answered "Game
over. Winner: Ava". -/
theorem land_at_most_one_winner_witness :
    (mapKeys moonRooms).Nodup ∧
    sameRoomRun trigEast "ABCDE" moonTrace moonRooms = true ∧
    landAcks trigEast "ABCDE" moonTrace moonRooms =
      [{ ok := true, deposited := some true, done := some true,
         winner := some { id := sockA, name := "Ava", time := 0 } },
       landError "Game over. Winner: Ava"] ∧
    ((landAcks trigEast "ABCDE" moonTrace moonRooms).filter
      (fun a => decide (a.done = some true))).length ≤ 1 :=
  ⟨by decide, by decide!, by decide!,
    (land_at_most_one_winner trigEast "ABCDE" moonTrace moonRooms (by decide)
      (by decide!)).1⟩

end SolarQuest
